import Mathlib

/-!
Verification of the graph-visualization server core
(services/graph_service.rs, handlers/websocket_handlers.rs,
utils/gpu_compute.rs) against its natural-language specification.

Conventions of the shallow embedding:
* `f32` arithmetic is modelled by exact rational arithmetic (`ℚ`);
  square roots, which are not rational-valued, are passed in as an
  oracle parameter `sqrtQ : ℚ → ℚ` wherever the source calls
  `f32::sqrt`.
* Rust `HashMap`/`HashSet` values are modelled as association lists
  (key-unique lists of pairs); their unspecified iteration order is
  made explicit as a list parameter wherever the source iterates one.
* Fallible code returns `Except String`; a Rust `usize` subtraction
  that can underflow is modelled by an explicit underflow check.
-/

/-- Three packed floats (source: `Vec3Data`), modelled componentwise as
rationals.  Using a product type gives componentwise additive-group
structure for free. -/
abbrev Vec3Q := ℚ × ℚ × ℚ

namespace Vec3Q

def x (v : Vec3Q) : ℚ := v.1

def y (v : Vec3Q) : ℚ := v.2.1

def z (v : Vec3Q) : ℚ := v.2.2

def mk3 (a b c : ℚ) : Vec3Q := (a, b, c)

def zero : Vec3Q := (0, 0, 0)

end Vec3Q

/-- Source: `BinaryNodeData` (utils/socket_flow_messages.rs, used by
gpu_compute.rs): position, velocity, mass (u8), flags (u8), 2 bytes
padding. -/
structure BinaryNodeData where
  position : Vec3Q
  velocity : Vec3Q
  mass : ℕ
  flags : ℕ
  padding : ℕ × ℕ
deriving DecidableEq, Repr

/-- Source: `Node` (utils/socket_flow_messages.rs): string id, metadata
id (filename stem), label, optional size, string metadata map, file
size, and the embedded binary record with live simulation state.  Only
the fields the verified code touches are modelled. -/
structure NodeL where
  id : String
  metadataId : String
  label : String
  size : Option ℚ
  metadata : List (String × String)
  fileSize : ℕ
  data : BinaryNodeData
deriving DecidableEq, Repr

/-- Source: `Edge` (models/edge.rs): `Edge::new(source, target, weight)`. -/
structure EdgeL where
  source : String
  target : String
  weight : ℚ
deriving DecidableEq, Repr

/-- Source: `Metadata` entry (models/metadata.rs), fields as used by
`build_graph_from_metadata` and listed by the spec: file name, file
size, node size, hyperlink count, sha1, stored node id, last-modified,
perplexity link, optional last perplexity process, topic counts.
Timestamps are kept as opaque strings. -/
structure MetadataL where
  fileName : String
  fileSize : ℕ
  nodeSize : ℚ
  hyperlinkCount : ℕ
  sha1 : String
  nodeId : String
  lastModified : String
  perplexityLink : String
  lastPerplexityProcess : Option String
  topicCounts : List (String × ℕ)
deriving DecidableEq, Repr

/-- Source: `MetadataStore` — a map from file name to metadata entry,
modelled as a key-unique association list in iteration order. -/
abbrev MetadataStore := List (String × MetadataL)

/-- First-match lookup in a metadata store (Rust `HashMap::get`). -/
def storeGet (store : MetadataStore) (k : String) : Option MetadataL :=
  (store.find? (fun p => p.1 == k)).map (·.2)

/-- Source: `GraphData` (models/graph.rs): nodes, edges, metadata and
the id→metadata-id map. -/
structure GraphDataL where
  nodes : List NodeL
  edges : List EdgeL
  metadata : MetadataStore
  idToMetadata : List (String × String)
deriving DecidableEq, Repr

/-- Source: `GraphData::new()` — all collections empty. -/
def GraphDataL.new : GraphDataL := ⟨[], [], [], []⟩

/-- Source: `SimulationParams` (models/simulation_params.rs), the
fields read by `calculate_layout_cpu`.  `iterations`, `phase` and
`mode` are not read by the CPU step and are omitted. -/
structure SimulationParamsL where
  springStrength : ℚ
  repulsion : ℚ
  damping : ℚ
  maxRepulsionDistance : ℚ
  viewportBounds : ℚ
  massScale : ℚ
  boundaryDamping : ℚ
  enableBounds : Bool
  timeStep : ℚ
deriving DecidableEq, Repr

/-! ## Binary position frames (handlers/websocket_handlers.rs 171-189)

`positions_to_binary` converts GPU nodes to the wire format, one
`NodePositionVelocity` record per node.  Float values are carried as
their 32-bit patterns (`UInt32`), which is all the byte-level claims
need. -/

/-- The four little-endian bytes of a 32-bit word, as laid out by
`bytemuck::bytes_of` for one `f32` field on a little-endian machine. -/
def toLEBytes (w : UInt32) : List UInt8 :=
  [w.toUInt8, (w >>> 8).toUInt8, (w >>> 16).toUInt8, (w >>> 24).toUInt8]

/-- Source: `NodePositionVelocity` (models/position_update.rs), the
packed position-update record: x, y, z, vx, vy, vz — six `f32`s, 24
bytes, as the source comment states. -/
structure NodePositionVelocity where
  x : UInt32
  y : UInt32
  z : UInt32
  vx : UInt32
  vy : UInt32
  vz : UInt32
deriving DecidableEq, Repr

/-- `bytemuck::bytes_of(&update)`: the packed little-endian bytes of a
`NodePositionVelocity` — six consecutive 4-byte fields. -/
def bytesOfUpdate (u : NodePositionVelocity) : List UInt8 :=
  toLEBytes u.x ++ toLEBytes u.y ++ toLEBytes u.z ++
    toLEBytes u.vx ++ toLEBytes u.vy ++ toLEBytes u.vz

/-- Source: `GPUNode` (models/node.rs), the fields read by
`positions_to_binary`: position and velocity components. -/
structure GPUNode where
  x : UInt32
  y : UInt32
  z : UInt32
  vx : UInt32
  vy : UInt32
  vz : UInt32
deriving DecidableEq, Repr

/-- Source: `positions_to_binary` (websocket_handlers.rs 173-189): for
each node, build a `NodePositionVelocity` from its position and
velocity and append its packed bytes. -/
def positions_to_binary (nodes : List GPUNode) : List UInt8 :=
  (nodes.map (fun node =>
    bytesOfUpdate ⟨node.x, node.y, node.z, node.vx, node.vy, node.vz⟩)).flatten

theorem bytesOfUpdate_length (u : NodePositionVelocity) :
    (bytesOfUpdate u).length = 24 := by
  simp [bytesOfUpdate, toLEBytes]

theorem positions_to_binary_length (nodes : List GPUNode) :
    (positions_to_binary nodes).length = 24 * nodes.length := by
  induction nodes with
  | nil => simp [positions_to_binary]
  | cons n ns ih =>
      simp only [positions_to_binary, List.map_cons, List.flatten_cons,
        List.length_append, bytesOfUpdate_length, List.length_cons] at *
      omega

/-- C1 (counterexample): a frame for a single node is 24 bytes, not
28 — the packed record is `NodePositionVelocity` (position + velocity
only), so the frame length is not `28·|nodes|`. -/
theorem c1_counterexample :
    (positions_to_binary [⟨0, 0, 0, 0, 0, 0⟩]).length ≠ 28 * 1 := by
  decide

/-- C1 (corrected): every binary position frame produced by
`positions_to_binary` (used by the layout handler, and fed with the
same GPU node data on the broadcast path) is the concatenation of one
24-byte `NodePositionVelocity` record per node, so its byte length
equals 24 times the number of nodes and is always a multiple of 24. -/
theorem c1_frame_length (nodes : List GPUNode) :
    (positions_to_binary nodes).length = 24 * nodes.length ∧
      24 ∣ (positions_to_binary nodes).length := by
  refine ⟨positions_to_binary_length nodes, ?_⟩
  rw [positions_to_binary_length]
  exact Dvd.intro _ rfl

/-! ## GPU initialization retry (utils/gpu_compute.rs 225-257)

`with_retry` runs `operation(attempt)` for `attempt` in
`0..max_attempts`, returning on the first success; on failure it
computes `delay = base_delay_ms * (1 << attempt)` and sleeps for that
long only when another attempt remains.  The embedding additionally
records the sleeps performed and the number of operation calls, so the
retry discipline can be stated. -/

structure RetryResult (T : Type) where
  result : Except String T
  sleeps : List ℕ
  calls : ℕ

/-- The retry loop body; the remaining attempt indices are carried as a
list (the source's `for attempt in 0..max_attempts`). -/
def retryGo {T : Type} (op : ℕ → Except String T) (maxAttempts baseDelayMs : ℕ) :
    List ℕ → Option String → List ℕ → ℕ → RetryResult T
  | [], lastError, sleeps, calls =>
      ⟨.error (lastError.getD
        ("All " ++ toString maxAttempts ++ " retry attempts failed")),
       sleeps, calls⟩
  | attempt :: rest, _, sleeps, calls =>
      match op attempt with
      | .ok r => ⟨.ok r, sleeps, calls + 1⟩
      | .error e =>
          let delay := baseDelayMs * 2 ^ attempt
          if attempt + 1 < maxAttempts then
            retryGo op maxAttempts baseDelayMs rest (some e)
              (sleeps ++ [delay]) (calls + 1)
          else
            retryGo op maxAttempts baseDelayMs rest (some e) sleeps (calls + 1)

/-- Source: `GPUCompute::with_retry(max_attempts, base_delay_ms, operation)`. -/
def with_retry {T : Type} (maxAttempts baseDelayMs : ℕ)
    (op : ℕ → Except String T) : RetryResult T :=
  retryGo op maxAttempts baseDelayMs (List.range maxAttempts) none [] 0

/-- Source constant `MAX_GPU_INIT_RETRIES`. -/
def MAX_GPU_INIT_RETRIES : ℕ := 3

/-- Source constant `RETRY_DELAY_MS`. -/
def RETRY_DELAY_MS : ℕ := 500

/-- Source: `GPUCompute::new` — reject over-large graphs, then retry
`initialize_gpu` with the constants above.  The initialization itself
(device probing, kernel loading) is external and abstracted as `op`. -/
def GPUCompute_new {T : Type} (numNodes : ℕ) (op : ℕ → Except String T) :
    Except String (RetryResult T) :=
  if numNodes > 1000000 then
    .error ("Node count exceeds limit: " ++ toString 1000000)
  else
    .ok (with_retry MAX_GPU_INIT_RETRIES RETRY_DELAY_MS op)

/-- C8 (confirmed): with the source constants (3 attempts, 500 ms
base), the operation is attempted at most 3 times; a failed attempt
`k` is followed by a sleep of `500·2^k` ms exactly when another
attempt remains (so the exponential schedule 500, 1000, 2000 produces
actual sleeps 500 and 1000, the last delay having no following
attempt); and when every attempt fails the caller receives the last
error after exactly 3 attempts. -/
theorem c8_retry_discipline {T : Type} (op : ℕ → Except String T) :
    (with_retry MAX_GPU_INIT_RETRIES RETRY_DELAY_MS op).calls ≤ 3 ∧
    (with_retry MAX_GPU_INIT_RETRIES RETRY_DELAY_MS op).sleeps =
      (List.range ((with_retry MAX_GPU_INIT_RETRIES RETRY_DELAY_MS op).calls - 1)).map
        (fun k => 500 * 2 ^ k) ∧
    ((∀ k < 3, ∃ e, op k = .error e) →
      (with_retry MAX_GPU_INIT_RETRIES RETRY_DELAY_MS op).calls = 3 ∧
      ∃ e, op 2 = .error e ∧
        (with_retry MAX_GPU_INIT_RETRIES RETRY_DELAY_MS op).result = .error e) := by
  have h3 : List.range 3 = [0, 1, 2] := by decide
  refine ⟨?_, ?_, ?_⟩
  · unfold with_retry MAX_GPU_INIT_RETRIES RETRY_DELAY_MS
    rw [h3]
    rcases h0 : op 0 with e0 | r0 <;> rcases h1 : op 1 with e1 | r1 <;>
      rcases h2 : op 2 with e2 | r2 <;> simp_all [retryGo]
  · unfold with_retry MAX_GPU_INIT_RETRIES RETRY_DELAY_MS
    rw [h3]
    rcases h0 : op 0 with e0 | r0 <;> rcases h1 : op 1 with e1 | r1 <;>
      rcases h2 : op 2 with e2 | r2 <;> simp_all [retryGo, List.range_succ]
  · intro hall
    obtain ⟨e0, h0⟩ := hall 0 (by omega)
    obtain ⟨e1, h1⟩ := hall 1 (by omega)
    obtain ⟨e2, h2⟩ := hall 2 (by omega)
    unfold with_retry MAX_GPU_INIT_RETRIES RETRY_DELAY_MS
    rw [h3]
    simp [retryGo, h0, h1, h2]

/-- C8 (witness): instantiating the retry theorem at an
always-failing operation: 3 calls, sleeps 500 and 1000, and the final
error is the error of attempt 2. -/
theorem c8_retry_discipline_witness :
    (with_retry MAX_GPU_INIT_RETRIES RETRY_DELAY_MS
        (fun k => (.error (toString k) : Except String Unit))).calls ≤ 3 ∧
    (with_retry MAX_GPU_INIT_RETRIES RETRY_DELAY_MS
        (fun k => (.error (toString k) : Except String Unit))).sleeps =
      (List.range ((with_retry MAX_GPU_INIT_RETRIES RETRY_DELAY_MS
        (fun k => (.error (toString k) : Except String Unit))).calls - 1)).map
        (fun k => 500 * 2 ^ k) ∧
    ((∀ k < 3, ∃ e, (fun k => (.error (toString k) : Except String Unit)) k = .error e) →
      (with_retry MAX_GPU_INIT_RETRIES RETRY_DELAY_MS
        (fun k => (.error (toString k) : Except String Unit))).calls = 3 ∧
      ∃ e, (fun k => (.error (toString k) : Except String Unit)) 2 = .error e ∧
        (with_retry MAX_GPU_INIT_RETRIES RETRY_DELAY_MS
          (fun k => (.error (toString k) : Except String Unit))).result = .error e) :=
  c8_retry_discipline (fun k => (.error (toString k) : Except String Unit))

/-! ## Inbound text-frame dispatch (handlers/websocket_handlers.rs 71-128)

The session's `StreamHandler` parses a text frame with
`serde_json::from_str` and, only when parsing succeeds, dispatches on
the `type` field.  The embedding takes the parse result (`Option Json`)
as input; the serde parser itself is external.  Replies that the
recognized handlers produce asynchronously are abstracted as
`dispatched` actions; only the synchronous error reply matters to the
claims. -/

/-- A JSON value, as produced by `serde_json::from_str`. -/
inductive Json where
  | null
  | bool (b : Bool)
  | num (q : ℚ)
  | str (s : String)
  | arr (elems : List Json)
  | obj (fields : List (String × Json))

/-- `value.get(key)` on a JSON value: object field lookup, `none` on
non-objects. -/
def Json.getField : Json → String → Option Json
  | .obj fields, k => (fields.find? (fun p => p.1 == k)).map (·.2)
  | _, _ => none

/-- `as_str()`: the payload of a JSON string, `none` otherwise. -/
def Json.asStr : Json → Option String
  | .str s => some s
  | _ => none

/-- `value["params"]`: field lookup defaulting to JSON null. -/
def Json.index (v : Json) (k : String) : Json :=
  (v.getField k).getD .null

/-- An outbound reaction of the session to one inbound text frame. -/
inductive SessionReply where
  | errorMsg (message : String) (code : Option String)
  | dispatched (tag : String)
deriving DecidableEq, Repr

/-- Source: the `Ok(ws::Message::Text(text))` arm of
`StreamHandler::handle` (websocket_handlers.rs 71-128).  `parsed` is
the result of `serde_json::from_str::<serde_json::Value>(&text)`;
`paramsOk` abstracts whether
`serde_json::from_value::<SimulationParams>` succeeds on the `params`
field.  The returned boolean is whether the session remains open
(this arm never calls `ctx.stop()`). -/
def handle_text_frame (paramsOk : Json → Bool) (parsed : Option Json) :
    List SessionReply × Bool :=
  match parsed with
  | none => ([], true)
  | some value =>
      match (value.getField "type").bind Json.asStr with
      | some t =>
          if t = "chat" then
            match (value.getField "message").bind Json.asStr with
            | some _ => ([.dispatched "chat"], true)
            | none => ([], true)
          else if t = "simulation_mode" then
            match (value.getField "mode").bind Json.asStr with
            | some _ => ([.dispatched "simulation_mode"], true)
            | none => ([], true)
          else if t = "layout" then
            if paramsOk (value.index "params") then
              ([.dispatched "layout"], true)
            else ([], true)
          else if t = "fisheye" then ([.dispatched "fisheye"], true)
          else if t = "initial_data" then ([.dispatched "initial_data"], true)
          else ([.errorMsg "Unknown message type"
                  (some "UNKNOWN_MESSAGE_TYPE")], true)
      | none =>
          ([.errorMsg "Unknown message type" (some "UNKNOWN_MESSAGE_TYPE")], true)

/-- C9 (counterexample): a text frame whose body is not well-formed
JSON (`serde_json::from_str` fails, i.e. `parsed = none`) produces no
reply at all — not the single Error reply the claim requires. -/
theorem c9_counterexample :
    (handle_text_frame (fun _ => true) none).1 = [] ∧
      (handle_text_frame (fun _ => true) none).1.length ≠ 1 := by
  exact ⟨rfl, by decide⟩

/-- C9 (corrected): for every inbound text frame that parses as JSON
but whose `type` field is unrecognized (missing, non-string, or not
one of the five handled values), the session replies with exactly one
Error message with code `UNKNOWN_MESSAGE_TYPE` and stays open; a body
that is not well-formed JSON is silently ignored (no reply, session
stays open). -/
theorem c9_unknown_type_error (paramsOk : Json → Bool) (value : Json)
    (h : ∀ t, (value.getField "type").bind Json.asStr = some t →
      t ≠ "chat" ∧ t ≠ "simulation_mode" ∧ t ≠ "layout" ∧
        t ≠ "fisheye" ∧ t ≠ "initial_data") :
    handle_text_frame paramsOk (some value) =
      ([.errorMsg "Unknown message type" (some "UNKNOWN_MESSAGE_TYPE")], true) ∧
    handle_text_frame paramsOk none = ([], true) := by
  refine ⟨?_, rfl⟩
  rcases ht : (value.getField "type").bind Json.asStr with _ | t
  · simp [handle_text_frame, ht]
  · obtain ⟨h1, h2, h3, h4, h5⟩ := h t ht
    simp [handle_text_frame, ht, h1, h2, h3, h4, h5]

/-- C9 (witness): the unknown-type theorem applied to the concrete
frame `{"type":"bogus"}`. -/
theorem c9_unknown_type_error_witness :
    handle_text_frame (fun _ => true)
        (some (.obj [("type", .str "bogus")])) =
      ([.errorMsg "Unknown message type" (some "UNKNOWN_MESSAGE_TYPE")], true) ∧
    handle_text_frame (fun _ => true) none = ([], true) :=
  c9_unknown_type_error (fun _ => true) (.obj [("type", .str "bogus")])
    (by intro t ht; simp [Json.getField, Json.asStr] at ht; subst ht; simp)

/-! ## Pagination (services/graph_service.rs 790-832)

`get_paginated_graph_data` computes `start = page * page_size`,
`end = min((page + 1) * page_size, total_nodes)` and sizes the window
with the `usize` subtraction `end - start`.  When
`page * page_size > total_nodes` that subtraction underflows; the
embedding makes the underflow explicit as an error (a Rust debug build
panics there; a release build wraps, which `skip`/`take` then happen to
mask). -/

/-- Source: the node/edge window computation of
`get_paginated_graph_data`, with the `end - start` underflow made
explicit. -/
def get_paginated_graph_data (g : GraphDataL) (page pageSize : ℕ) :
    Except String (List NodeL × List EdgeL) :=
  let totalNodes := g.nodes.length
  let start := page * pageSize
  let stop := min ((page + 1) * pageSize) totalNodes
  if stop < start then .error "attempt to subtract with overflow"
  else
    let pageNodes := (g.nodes.drop start).take (stop - start)
    let nodeIds := pageNodes.map (·.id)
    let pageEdges := g.edges.filter
      (fun e => nodeIds.contains e.source || nodeIds.contains e.target)
    .ok (pageNodes, pageEdges)

/-- A one-node graph used as the pagination failing input. -/
def oneNodeGraph : GraphDataL :=
  { nodes := [⟨"0", "a", "a", none, [], 0,
      ⟨Vec3Q.zero, Vec3Q.zero, 0, 1, (0, 0)⟩⟩],
    edges := [], metadata := [], idToMetadata := [] }

/-- C10 (code bug): on a 1-node graph, requesting `page = 1`,
`page_size = 2` makes `start = 2`, `end = min(4, 1) = 1`, and the
`usize` window size `end - start = 1 - 2` underflows — the function
does not handle `page × page_size > total_nodes` as an empty window. -/
theorem c10_pagination_underflow :
    get_paginated_graph_data oneNodeGraph 1 2 =
      .error "attempt to subtract with overflow" := by
  rfl

/-! ## Graph builder (services/graph_service.rs 172-312)

`build_graph_from_metadata` creates one node per distinct `.md`-trimmed
store key, accumulates edge weights per unordered id pair from
`topic_counts`, and assigns initial positions.  The unspecified
iteration order of the `valid_nodes` hash set is an explicit `order`
parameter; the fresh-numeric-id counter, mass mapping and the
Fibonacci-sphere/RNG position sampler live outside src and are
modelled from the spec as parameters. -/

/-- Strip every trailing `".md"` from a reversed character list — the
worker for Rust `trim_end_matches(".md")`. -/
def stripMdRev : List Char → List Char
  | 'd' :: 'm' :: '.' :: rest => stripMdRev rest
  | l => l

/-- Rust `s.trim_end_matches(".md")`: remove all trailing `".md"`
occurrences. -/
def trimMd (s : String) : String :=
  String.mk (stripMdRev s.data.reverse).reverse

/-- Rust `s.ends_with(".md")`. -/
def endsWithMd (s : String) : Bool :=
  match s.data.reverse with
  | 'd' :: 'm' :: '.' :: _ => true
  | _ => false

/-- Rust `&file_name[..file_name.len() - 3]` — drop the final `".md"`
(one occurrence; the suffix is ASCII so byte and char counts agree). -/
def dropMdOnce (s : String) : String :=
  String.mk (s.data.take (s.data.length - 3))

/-- Modelled from the spec: `Node::new_with_id(metadata_id,
stored_node_id)` (models/node.rs is not in src) creates a node,
"reusing any stored `node_id` or assigning a fresh numeric id"; the
fresh ids come from a global counter, modelled by threading `counter`. -/
def node_new_with_id (metadataId : String) (stored : Option String)
    (counter : ℕ) : NodeL × ℕ :=
  let base : NodeL :=
    { id := "", metadataId, label := metadataId, size := none,
      metadata := [], fileSize := 0,
      data := ⟨Vec3Q.zero, Vec3Q.zero, 0, 0, (0, 0)⟩ }
  match stored with
  | some id => ({ base with id }, counter)
  | none => ({ base with id := toString counter }, counter + 1)

/-- Source lines 211-254: populate a node from its metadata entry —
file size and mass, label, size, the string metadata map, and
`flags = 1`.  The file-size→mass mapping of `set_file_size` lives
outside src and is the `massOf` parameter (spec: a monotonic mapping
clamped to `u8`). -/
def populateNode (massOf : ℕ → ℕ) (node : NodeL) (md : MetadataL) : NodeL :=
  let nameMeta :=
    if endsWithMd md.fileName then
      let name := dropMdOnce md.fileName
      [("name", name), ("metadataId", name)]
    else
      [("name", md.fileName), ("metadataId", md.fileName)]
  let plMeta :=
    if md.perplexityLink ≠ "" then [("perplexityLink", md.perplexityLink)]
    else []
  let lpMeta :=
    match md.lastPerplexityProcess with
    | some lp => [("lastPerplexityProcess", lp)]
    | none => []
  { node with
      fileSize := md.fileSize,
      label := trimMd md.fileName,
      size := some md.nodeSize,
      metadata := node.metadata ++ [("fileName", md.fileName)] ++ nameMeta ++
        [("fileSize", toString md.fileSize),
         ("nodeSize", toString md.nodeSize),
         ("hyperlinkCount", toString md.hyperlinkCount),
         ("sha1", md.sha1),
         ("lastModified", md.lastModified)] ++ plMeta ++ lpMeta,
      data := { node.data with mass := massOf md.fileSize, flags := 1 } }

/-- Accumulator of the node-creation pass: nodes in creation order, the
id→metadata-id map, and the fresh-id counter. -/
structure BuildAcc where
  nodes : List NodeL
  idToMetadata : List (String × String)
  counter : ℕ

/-- Source lines 201-261, one `valid_nodes` iteration.  NOTE (faithful
to the source): the stored-id lookup reads `graph.metadata`, which at
this point is still the empty map of `GraphData::new()` — the `store`
argument is only consulted afterwards to populate the node's fields. -/
def build_nodes_step (massOf : ℕ → ℕ) (store : MetadataStore)
    (acc : BuildAcc) (nodeId : String) : BuildAcc :=
  let metadataEntry := storeGet GraphDataL.new.metadata (nodeId ++ ".md")
  let storedNodeId := metadataEntry.map (·.nodeId)
  let created := node_new_with_id nodeId storedNodeId acc.counter
  let node :=
    match storeGet store (nodeId ++ ".md") with
    | some md => populateNode massOf created.1 md
    | none => created.1
  { nodes := acc.nodes ++ [node],
    idToMetadata := acc.idToMetadata ++ [(created.1.id, nodeId)],
    counter := created.2 }

/-- The node-creation pass over the `valid_nodes` iteration `order`. -/
def build_nodes (massOf : ℕ → ℕ) (counter0 : ℕ) (order : List String)
    (store : MetadataStore) : BuildAcc :=
  order.foldl (build_nodes_step massOf store) ⟨[], [], counter0⟩

/-- `edge_map.entry(key).and_modify(|w| *w += count).or_insert(count)`
on an association list with unique keys. -/
def updateWeight :
    List ((String × String) × ℚ) → String × String → ℚ →
      List ((String × String) × ℚ)
  | [], key, w => [(key, w)]
  | (k, v) :: rest, key, w =>
      if k = key then (k, v + w) :: rest
      else (k, v) :: updateWeight rest key w

/-- The canonical unordered-pair key: `if source < target { (source,
target) } else { (target, source) }` (source lines 287-291). -/
def orderKey (a b : String) : String × String :=
  if a < b then (a, b) else (b, a)

/-- Source lines 276-297, one `topic_counts` item for source node `sn`:
find the target node, skip self-pairs, accumulate the count. -/
def topic_step (nodes : List NodeL) (sn : NodeL)
    (em : List ((String × String) × ℚ)) (tc : String × ℕ) :
    List ((String × String) × ℚ) :=
  let targetId := trimMd tc.1
  match nodes.find? (fun n => n.metadataId == targetId) with
  | none => em
  | some tn =>
      if sn.id ≠ tn.id then updateWeight em (orderKey sn.id tn.id) (tc.2 : ℚ)
      else em

/-- Source lines 267-298, one store entry: find the source node, then
fold its topic counts. -/
def entry_step (nodes : List NodeL) (em : List ((String × String) × ℚ))
    (entry : String × MetadataL) : List ((String × String) × ℚ) :=
  let sourceId := trimMd entry.1
  match nodes.find? (fun n => n.metadataId == sourceId) with
  | none => em
  | some sn => entry.2.topicCounts.foldl (topic_step nodes sn) em

/-- The edge-weight map of the second pass. -/
def build_edge_map (nodes : List NodeL) (store : MetadataStore) :
    List ((String × String) × ℚ) :=
  store.foldl (entry_step nodes) []

/-- Source lines 301-305: one `Edge::new(source, target, weight)` per
map entry. -/
def build_edges (nodes : List NodeL) (store : MetadataStore) : List EdgeL :=
  (build_edge_map nodes store).map (fun p => ⟨p.1.1, p.1.2, p.2⟩)

/-- Source: `initialize_random_positions` (lines 460-502): set each
node's position from its index and the node count, and zero its
velocity.  The Fibonacci-sphere formula with thread-rng jitter uses
transcendental functions and a nondeterministic RNG and is abstracted
as the sampler `initPosition : index → node_count → position`. -/
def init_random_positions (initPosition : ℕ → ℕ → Vec3Q)
    (nodes : List NodeL) : List NodeL :=
  nodes.enum.map (fun p =>
    { p.2 with data := { p.2.data with
        position := initPosition p.1 nodes.length,
        velocity := Vec3Q.zero } })

/-- Source: `GraphService::build_graph_from_metadata` (lines 189-311),
after the single-flight guard: node pass over the `valid_nodes`
iteration `order`, store the metadata, edge pass, initial positions. -/
def build_graph_from_metadata (massOf : ℕ → ℕ)
    (initPosition : ℕ → ℕ → Vec3Q) (counter0 : ℕ) (order : List String)
    (store : MetadataStore) : GraphDataL :=
  let acc := build_nodes massOf counter0 order store
  { nodes := init_random_positions initPosition acc.nodes,
    edges := build_edges acc.nodes store,
    metadata := store,
    idToMetadata := acc.idToMetadata }

/-- Source lines 172-187 and 311: the process-wide
`GRAPH_REBUILD_IN_PROGRESS` compare-and-swap guard around the rebuild.
The boolean is the flag's value at entry; the returned boolean is its
value when the call returns (the `RebuildGuard` drop clears it on
every exit path of the body; the busy path returns before the guard is
created and leaves the other rebuild's flag set). -/
def build_graph_guarded (flag : Bool) (massOf : ℕ → ℕ)
    (initPosition : ℕ → ℕ → Vec3Q) (counter0 : ℕ) (order : List String)
    (store : MetadataStore) : Except String GraphDataL × Bool :=
  if flag then (.error "Graph rebuild already in progress", flag)
  else (.ok (build_graph_from_metadata massOf initPosition counter0 order store),
        false)

theorem build_nodes_step_map_metadataId (massOf : ℕ → ℕ)
    (store : MetadataStore) (acc : BuildAcc) (a : String) :
    (build_nodes_step massOf store acc a).nodes.map (·.metadataId) =
      acc.nodes.map (·.metadataId) ++ [a] := by
  unfold build_nodes_step
  rcases h : storeGet store (a ++ ".md") with _ | md <;>
    simp [h, storeGet, GraphDataL.new, node_new_with_id, populateNode]

theorem build_nodes_go_map_metadataId (massOf : ℕ → ℕ)
    (store : MetadataStore) (order : List String) :
    ∀ acc : BuildAcc,
      ((order.foldl (build_nodes_step massOf store) acc).nodes.map
        (·.metadataId)) = acc.nodes.map (·.metadataId) ++ order := by
  induction order with
  | nil => intro acc; simp
  | cons a l ih =>
      intro acc
      rw [List.foldl_cons, ih, build_nodes_step_map_metadataId]
      simp

theorem init_positions_map_metadataId (ip : ℕ → ℕ → Vec3Q)
    (nodes : List NodeL) :
    (init_random_positions ip nodes).map (·.metadataId) =
      nodes.map (·.metadataId) := by
  unfold init_random_positions
  rw [List.map_map]
  have : ((fun n : NodeL => n.metadataId) ∘ fun p : ℕ × NodeL =>
      ({ p.2 with data := { p.2.data with
          position := ip p.1 nodes.length,
          velocity := Vec3Q.zero } } : NodeL)) =
      (fun n : NodeL => n.metadataId) ∘ Prod.snd := rfl
  rw [this, ← List.map_map, List.enum_map_snd]

/-- The node sequence of a built graph lists the metadata-ids exactly
in the hash-set iteration order that produced it. -/
theorem build_graph_map_metadataId (massOf : ℕ → ℕ)
    (ip : ℕ → ℕ → Vec3Q) (c0 : ℕ) (order : List String)
    (store : MetadataStore) :
    (build_graph_from_metadata massOf ip c0 order store).nodes.map
      (·.metadataId) = order := by
  unfold build_graph_from_metadata build_nodes
  rw [init_positions_map_metadataId, build_nodes_go_map_metadataId]
  simp

/-- A minimal metadata entry for concrete stores. -/
def mdEntry (name : String) : MetadataL :=
  ⟨name, 0, 0, 0, "", "", "", "", none, []⟩

/-- A two-file store `{a.md, b.md}` with no links. -/
def storeAB : MetadataStore :=
  [("a.md", mdEntry "a.md"), ("b.md", mdEntry "b.md")]

/-- C3 (counterexample): two runs of `build_graph_from_metadata` on the
very same store differ when the `valid_nodes` hash set happens to
iterate in a different order (`["a", "b"]` vs `["b", "a"]`, both valid
iteration orders of the key set): the node sequences disagree, so the
builder is not a pure function of the store alone. -/
theorem c3_counterexample :
    build_graph_from_metadata (fun _ => 0) (fun _ _ => Vec3Q.zero) 0
        ["a", "b"] storeAB ≠
      build_graph_from_metadata (fun _ => 0) (fun _ _ => Vec3Q.zero) 0
        ["b", "a"] storeAB := by
  intro h
  have h2 := congrArg (fun g => g.nodes.map (·.metadataId)) h
  simp only [build_graph_map_metadataId] at h2
  exact absurd h2 (by decide)

/-- C3 (corrected): the builder is deterministic given its store AND
the internal nondeterminism sources (hash-set iteration order, fresh-id
counter, RNG): the node sequence lists metadata-ids exactly in the
iteration order, so two runs with permuted iteration orders produce
the same multiset of nodes (by metadata-id) while the sequence order —
and therefore ids and positions — may differ. -/
theorem c3_same_store_same_node_multiset (massOf : ℕ → ℕ)
    (ip : ℕ → ℕ → Vec3Q) (c0 : ℕ) (store : MetadataStore)
    (order₁ order₂ : List String) (h : order₁.Perm order₂) :
    ((build_graph_from_metadata massOf ip c0 order₁ store).nodes.map
        (·.metadataId)).Perm
      ((build_graph_from_metadata massOf ip c0 order₂ store).nodes.map
        (·.metadataId)) := by
  rw [build_graph_map_metadataId, build_graph_map_metadataId]
  exact h

/-- C3 (witness): the multiset-stability theorem applied to the
two-file store with the two iteration orders. -/
theorem c3_same_store_same_node_multiset_witness :
    ((build_graph_from_metadata (fun _ => 0) (fun _ _ => Vec3Q.zero) 0
        ["a", "b"] storeAB).nodes.map (·.metadataId)).Perm
      ((build_graph_from_metadata (fun _ => 0) (fun _ _ => Vec3Q.zero) 0
        ["b", "a"] storeAB).nodes.map (·.metadataId)) :=
  c3_same_store_same_node_multiset (fun _ => 0) (fun _ _ => Vec3Q.zero) 0
    storeAB ["a", "b"] ["b", "a"] (by decide)

/-- A store whose single entry carries the stored numeric id "42". -/
def storeC2 : MetadataStore :=
  [("test.md",
    { fileName := "test.md", fileSize := 1000, nodeSize := 3 / 2,
      hyperlinkCount := 5, sha1 := "abc123", nodeId := "42",
      lastModified := "2025-01-01", perplexityLink := "",
      lastPerplexityProcess := none, topicCounts := [] })]

/-- C2 (code bug): the store's entry carries `node_id = "42"`, but the
built node gets the fresh counter id "0" — the stored-id lookup at
graph_service.rs 203 reads `graph.metadata`, which is still empty
because the store is only copied into the graph at line 264, after the
node pass.  The stored numeric id is therefore never reused. -/
theorem c2_stored_id_not_reused :
    ((build_graph_from_metadata (fun _ => 0) (fun _ _ => Vec3Q.zero) 0
        ["test"] storeC2).nodes.map (·.id)) = ["0"] ∧
      (storeGet storeC2 "test.md").map (·.nodeId) = some "42" ∧
      ("0" : String) ≠ "42" := by
  exact ⟨rfl, rfl, by decide⟩

/-- C7 (confirmed): while a rebuild is in progress (flag set), a
second rebuild call returns the distinct "already in progress" error
and leaves the flag (and all graph state) untouched; when admitted
(flag clear), the rebuild returns its graph and the flag is clear again
on exit, so a subsequent rebuild is admitted. -/
theorem c7_single_flight_guard (flag : Bool) (massOf : ℕ → ℕ)
    (ip : ℕ → ℕ → Vec3Q) (c0 : ℕ) (order : List String)
    (store : MetadataStore) :
    (flag = true →
      build_graph_guarded flag massOf ip c0 order store =
        (.error "Graph rebuild already in progress", true)) ∧
    (flag = false →
      build_graph_guarded flag massOf ip c0 order store =
        (.ok (build_graph_from_metadata massOf ip c0 order store), false)) := by
  cases flag <;> simp [build_graph_guarded]

/-- C7 (witness): the guard theorem at concrete inputs — a busy call
errors with the flag still set; an admitted call returns with the flag
cleared. -/
theorem c7_single_flight_guard_witness :
    build_graph_guarded true (fun _ => 0) (fun _ _ => Vec3Q.zero) 0 []
        [] = (.error "Graph rebuild already in progress", true) ∧
    build_graph_guarded false (fun _ => 0) (fun _ _ => Vec3Q.zero) 0 []
        [] = (.ok (build_graph_from_metadata (fun _ => 0)
          (fun _ _ => Vec3Q.zero) 0 [] []), false) :=
  ⟨(c7_single_flight_guard true (fun _ => 0) (fun _ _ => Vec3Q.zero) 0 []
      []).1 rfl,
   (c7_single_flight_guard false (fun _ => 0) (fun _ _ => Vec3Q.zero) 0 []
      []).2 rfl⟩

/-! ## Edge-map invariants (for the built-graph edge claims)

The edge pass is a fold of `updateWeight` over the per-store-entry
contribution lists.  `lookupW` is the filtered weight sum for one key:
on the final map it reads an edge's weight, on the contribution list
it is the claim's "sum of all topic counts in either direction". -/

abbrev WMap := List ((String × String) × ℚ)

/-- Sum of the values stored under key `k`. -/
def lookupW (em : WMap) (k : String × String) : ℚ :=
  ((em.filter (fun p => p.1 = k)).map (·.2)).sum

theorem lookupW_nil (k : String × String) : lookupW [] k = 0 := rfl

theorem lookupW_cons (p : (String × String) × ℚ) (l : WMap)
    (k : String × String) :
    lookupW (p :: l) k = (if p.1 = k then p.2 else 0) + lookupW l k := by
  unfold lookupW
  rw [List.filter_cons]
  split <;> simp_all

theorem lookupW_append (l₁ l₂ : WMap) (k : String × String) :
    lookupW (l₁ ++ l₂) k = lookupW l₁ k + lookupW l₂ k := by
  simp [lookupW, List.filter_append]

theorem lookupW_flatten (ls : List WMap) (k : String × String) :
    lookupW ls.flatten k = (ls.map (lookupW · k)).sum := by
  induction ls with
  | nil => rfl
  | cons l rest ih => simp [lookupW_append, ih]

theorem updateWeight_lookupW (em : WMap) (k : String × String) (w : ℚ)
    (j : String × String) :
    lookupW (updateWeight em k w) j =
      lookupW em j + (if j = k then w else 0) := by
  induction em with
  | nil =>
      simp only [updateWeight, lookupW_cons, lookupW_nil]
      rcases eq_or_ne k j with h | h <;> simp [h, eq_comm]
  | cons p rest ih =>
      obtain ⟨k', v⟩ := p
      simp only [updateWeight]
      split
      · next hk =>
          subst hk
          rcases eq_or_ne j k' with h | h <;>
            simp [lookupW_cons, h, eq_comm] <;> ring
      · next hk =>
          rw [lookupW_cons, lookupW_cons, ih]
          ring

theorem updateWeight_keys_mem (em : WMap) (k : String × String) (w : ℚ)
    (j : String × String) :
    j ∈ (updateWeight em k w).map (·.1) ↔
      j ∈ em.map (·.1) ∨ j = k := by
  induction em with
  | nil => simp [updateWeight, eq_comm]
  | cons p rest ih =>
      obtain ⟨k', v⟩ := p
      simp only [updateWeight]
      split
      · next hk => subst hk; simp [eq_comm]; tauto
      · next hk => simp [ih]; tauto

theorem updateWeight_keys_nodup (em : WMap) (k : String × String) (w : ℚ)
    (h : (em.map (·.1)).Nodup) :
    ((updateWeight em k w).map (·.1)).Nodup := by
  induction em with
  | nil => simp [updateWeight]
  | cons p rest ih =>
      obtain ⟨k', v⟩ := p
      simp only [List.map_cons, List.nodup_cons] at h
      simp only [updateWeight]
      split
      · next hk =>
          subst hk
          simp only [List.map_cons, List.nodup_cons]
          exact h
      · next hk =>
          simp only [List.map_cons, List.nodup_cons]
          refine ⟨?_, ih h.2⟩
          rw [updateWeight_keys_mem]
          rintro (hmem | rfl)
          · exact h.1 hmem
          · exact hk rfl

theorem lookupW_eq_zero_of_not_mem (em : WMap) (j : String × String)
    (h : j ∉ em.map (·.1)) : lookupW em j = 0 := by
  induction em with
  | nil => rfl
  | cons p rest ih =>
      simp only [List.map_cons, List.mem_cons] at h
      push_neg at h
      rw [lookupW_cons, ih h.2]
      simp [Ne.symm h.1]

theorem mem_weight_eq_lookupW (em : WMap)
    (hnd : (em.map (·.1)).Nodup) :
    ∀ p ∈ em, p.2 = lookupW em p.1 := by
  induction em with
  | nil => intro p hp; cases hp
  | cons q rest ih =>
      simp only [List.map_cons, List.nodup_cons] at hnd
      intro p hp
      rcases List.mem_cons.mp hp with rfl | hp'
      · rw [lookupW_cons, lookupW_eq_zero_of_not_mem rest p.1 hnd.1]
        simp
      · rw [lookupW_cons, ih hnd.2 p hp']
        have : q.1 ≠ p.1 := by
          intro he
          exact hnd.1 (he ▸ List.mem_map_of_mem (·.1) hp')
        simp [this]

/-- One fold step of the edge pass over a flattened contribution. -/
def updW (em : WMap) (c : (String × String) × ℚ) : WMap :=
  updateWeight em c.1 c.2

theorem foldW_lookupW (L : WMap) :
    ∀ (em : WMap) (j : String × String),
      lookupW (L.foldl updW em) j = lookupW em j + lookupW L j := by
  induction L with
  | nil => intro em j; simp [lookupW_nil]
  | cons c rest ih =>
      intro em j
      rw [List.foldl_cons, ih, lookupW_cons]
      unfold updW
      rw [updateWeight_lookupW]
      rcases eq_or_ne j c.1 with h | h <;> simp [h, eq_comm] <;> ring

theorem foldW_keys_nodup (L : WMap) :
    ∀ em : WMap, (em.map (·.1)).Nodup →
      ((L.foldl updW em).map (·.1)).Nodup := by
  induction L with
  | nil => intro em h; exact h
  | cons c rest ih =>
      intro em h
      rw [List.foldl_cons]
      exact ih _ (updateWeight_keys_nodup em c.1 c.2 h)

theorem foldW_keys_sub (L : WMap) :
    ∀ (em : WMap) (j : String × String),
      j ∈ (L.foldl updW em).map (·.1) →
        j ∈ em.map (·.1) ∨ j ∈ L.map (·.1) := by
  induction L with
  | nil => intro em j h; exact Or.inl h
  | cons c rest ih =>
      intro em j h
      rw [List.foldl_cons] at h
      rcases ih _ j h with h' | h'
      · rcases (updateWeight_keys_mem em c.1 c.2 j).mp h' with h'' | rfl
        · exact Or.inl h''
        · exact Or.inr (by simp)
      · exact Or.inr (by simp [h'])

/-- The contributions of one source node's topic counts: the unordered
pair key and the count, skipping missing targets and self-pairs
(source lines 276-297, flattened). -/
def topicContribs (nodes : List NodeL) (sn : NodeL)
    (tcs : List (String × ℕ)) : WMap :=
  tcs.filterMap (fun tc =>
    match nodes.find? (fun n => n.metadataId == trimMd tc.1) with
    | none => none
    | some tn =>
        if sn.id ≠ tn.id then some (orderKey sn.id tn.id, (tc.2 : ℚ))
        else none)

/-- The contributions of one store entry (source lines 267-298,
flattened). -/
def entryContribs (nodes : List NodeL) (entry : String × MetadataL) : WMap :=
  match nodes.find? (fun n => n.metadataId == trimMd entry.1) with
  | none => []
  | some sn => topicContribs nodes sn entry.2.topicCounts

/-- Every edge-weight contribution of the whole store, in loop order. -/
def storeContribs (nodes : List NodeL) (store : MetadataStore) : WMap :=
  (store.map (entryContribs nodes)).flatten

theorem topic_fold_eq (nodes : List NodeL) (sn : NodeL)
    (tcs : List (String × ℕ)) :
    ∀ em : WMap, tcs.foldl (topic_step nodes sn) em =
      (topicContribs nodes sn tcs).foldl updW em := by
  induction tcs with
  | nil => intro em; rfl
  | cons tc rest ih =>
      intro em
      rw [List.foldl_cons]
      rcases h : nodes.find? (fun n => n.metadataId == trimMd tc.1) with _ | tn
      · have h1 : topic_step nodes sn em tc = em := by
          simp only [topic_step, h]
        have h2 : topicContribs nodes sn (tc :: rest) =
            topicContribs nodes sn rest := by
          simp only [topicContribs, List.filterMap_cons, h]
        rw [h1, h2]
        exact ih em
      · by_cases hid : sn.id ≠ tn.id
        · have h1 : topic_step nodes sn em tc =
              updateWeight em (orderKey sn.id tn.id) (tc.2 : ℚ) := by
            simp only [topic_step, h, if_pos hid]
          have h2 : topicContribs nodes sn (tc :: rest) =
              (orderKey sn.id tn.id, (tc.2 : ℚ)) ::
                topicContribs nodes sn rest := by
            simp only [topicContribs, List.filterMap_cons, h, if_pos hid]
          rw [h1, h2, List.foldl_cons]
          exact ih _
        · have h1 : topic_step nodes sn em tc = em := by
            simp only [topic_step, h, if_neg hid]
          have h2 : topicContribs nodes sn (tc :: rest) =
              topicContribs nodes sn rest := by
            simp only [topicContribs, List.filterMap_cons, h, if_neg hid]
          rw [h1, h2]
          exact ih em

theorem entry_fold_eq (nodes : List NodeL) (entry : String × MetadataL) :
    ∀ em : WMap, entry_step nodes em entry =
      (entryContribs nodes entry).foldl updW em := by
  intro em
  rcases h : nodes.find? (fun n => n.metadataId == trimMd entry.1) with _ | sn
  · have h1 : entry_step nodes em entry = em := by
      simp only [entry_step, h]
    have h2 : entryContribs nodes entry = [] := by
      simp only [entryContribs, h]
    rw [h1, h2]
    rfl
  · have h1 : entry_step nodes em entry =
        entry.2.topicCounts.foldl (topic_step nodes sn) em := by
      simp only [entry_step, h]
    have h2 : entryContribs nodes entry =
        topicContribs nodes sn entry.2.topicCounts := by
      simp only [entryContribs, h]
    rw [h1, h2]
    exact topic_fold_eq nodes sn entry.2.topicCounts em

theorem build_edge_map_eq_foldW (nodes : List NodeL) (store : MetadataStore) :
    build_edge_map nodes store = (storeContribs nodes store).foldl updW [] := by
  unfold build_edge_map storeContribs
  generalize ([] : WMap) = em
  induction store generalizing em with
  | nil => rfl
  | cons entry rest ih =>
      rw [List.foldl_cons, List.map_cons, List.flatten_cons,
        List.foldl_append, ih, entry_fold_eq]

theorem orderKey_fst_lt_snd (a b : String) (h : a ≠ b) :
    (orderKey a b).1 < (orderKey a b).2 := by
  unfold orderKey
  split
  · next hlt => exact hlt
  · next hnlt => exact lt_of_le_of_ne (not_lt.mp hnlt) (Ne.symm h)

theorem orderKey_eq_iff (a b u v : String) (hab : a ≠ b) (huv : u < v) :
    orderKey a b = (u, v) ↔ (a = u ∧ b = v) ∨ (a = v ∧ b = u) := by
  unfold orderKey
  split
  · next hlt =>
      constructor
      · intro he
        exact Or.inl ⟨congrArg Prod.fst he, congrArg Prod.snd he⟩
      · rintro (⟨rfl, rfl⟩ | ⟨rfl, rfl⟩)
        · rfl
        · exact absurd hlt (lt_asymm huv)
  · next hnlt =>
      constructor
      · intro he
        exact Or.inr ⟨congrArg Prod.snd he, congrArg Prod.fst he⟩
      · rintro (⟨rfl, rfl⟩ | ⟨rfl, rfl⟩)
        · exact absurd huv (by exact fun h' => hnlt h')
        · rfl

theorem storeContribs_shape (nodes : List NodeL) (store : MetadataStore) :
    ∀ c ∈ storeContribs nodes store,
      ∃ sn tn, sn ∈ nodes ∧ tn ∈ nodes ∧ sn.id ≠ tn.id ∧
        c.1 = orderKey sn.id tn.id := by
  intro c hc
  unfold storeContribs at hc
  rw [List.mem_flatten] at hc
  obtain ⟨l, hl, hcl⟩ := hc
  rw [List.mem_map] at hl
  obtain ⟨entry, _, rfl⟩ := hl
  unfold entryContribs at hcl
  rcases hsn : nodes.find? (fun n => n.metadataId == trimMd entry.1) with _ | sn
  · rw [hsn] at hcl; cases hcl
  · rw [hsn] at hcl
    unfold topicContribs at hcl
    rw [List.mem_filterMap] at hcl
    obtain ⟨tc, _, htc⟩ := hcl
    rcases htn : nodes.find? (fun n => n.metadataId == trimMd tc.1) with _ | tn
    · simp only [htn] at htc
      cases htc
    · simp only [htn] at htc
      by_cases hid : sn.id ≠ tn.id
      · rw [if_pos hid] at htc
        refine ⟨sn, tn, List.mem_of_find?_eq_some hsn,
          List.mem_of_find?_eq_some htn, hid, ?_⟩
        have := congrArg Prod.fst (Option.some.inj htc)
        exact this.symm
      · rw [if_neg hid] at htc; cases htc

/-- The spec-side weight of the pair `{u, v}` contributed by one store
entry: the sum of all its topic counts whose resolved (source, target)
node ids hit `{u, v}` in either direction. -/
def pairWeightEntry (nodes : List NodeL) (u v : String)
    (entry : String × MetadataL) : ℚ :=
  (entry.2.topicCounts.map (fun tc =>
    match (nodes.find? (fun n => n.metadataId == trimMd entry.1)).map (·.id),
          (nodes.find? (fun n => n.metadataId == trimMd tc.1)).map (·.id) with
    | some aid, some bid =>
        if (aid = u ∧ bid = v) ∨ (aid = v ∧ bid = u) then (tc.2 : ℚ) else 0
    | _, _ => 0)).sum

/-- The spec-side notion the claim states: "the sum of all topic counts
in either direction between the pair" of node ids `u`, `v`. -/
def pairWeight (store : MetadataStore) (nodes : List NodeL)
    (u v : String) : ℚ :=
  (store.map (pairWeightEntry nodes u v)).sum

theorem lookupW_topicContribs (nodes : List NodeL) (sn : NodeL)
    (u v : String) (huv : u < v) (tcs : List (String × ℕ)) :
    lookupW (topicContribs nodes sn tcs) (u, v) =
      (tcs.map (fun tc =>
        match (nodes.find? (fun n => n.metadataId == trimMd tc.1)).map (·.id) with
        | some bid =>
            if (sn.id = u ∧ bid = v) ∨ (sn.id = v ∧ bid = u) then (tc.2 : ℚ)
            else 0
        | none => 0)).sum := by
  induction tcs with
  | nil => rfl
  | cons tc rest ih =>
      rcases htn : nodes.find? (fun n => n.metadataId == trimMd tc.1) with _ | tn
      · have h2 : topicContribs nodes sn (tc :: rest) =
            topicContribs nodes sn rest := by
          simp only [topicContribs, List.filterMap_cons, htn]
        rw [h2, ih]
        simp [htn]
      · by_cases hid : sn.id ≠ tn.id
        · have h2 : topicContribs nodes sn (tc :: rest) =
              (orderKey sn.id tn.id, (tc.2 : ℚ)) ::
                topicContribs nodes sn rest := by
            simp only [topicContribs, List.filterMap_cons, htn, if_pos hid]
          rw [h2, lookupW_cons, ih]
          simp only [List.map_cons, List.sum_cons, htn, Option.map_some']
          congr 1
          exact if_congr (orderKey_eq_iff sn.id tn.id u v hid huv) rfl rfl
        · have hid' : sn.id = tn.id := not_not.mp hid
          have h2 : topicContribs nodes sn (tc :: rest) =
              topicContribs nodes sn rest := by
            simp only [topicContribs, List.filterMap_cons, htn, if_neg hid]
          rw [h2, ih]
          simp only [List.map_cons, List.sum_cons, htn, Option.map_some']
          rw [if_neg, zero_add]
          rintro (⟨ha, hb⟩ | ⟨ha, hb⟩)
          · exact ne_of_lt huv (by rw [← ha, ← hb, hid'])
          · exact ne_of_lt huv (by rw [← hb, ← ha, hid'])

theorem lookupW_entryContribs (nodes : List NodeL)
    (entry : String × MetadataL) (u v : String) (huv : u < v) :
    lookupW (entryContribs nodes entry) (u, v) =
      pairWeightEntry nodes u v entry := by
  rcases hsn : nodes.find? (fun n => n.metadataId == trimMd entry.1) with _ | sn
  · have h2 : entryContribs nodes entry = [] := by
      simp only [entryContribs, hsn]
    rw [h2, lookupW_nil]
    unfold pairWeightEntry
    simp [hsn]
  · have h2 : entryContribs nodes entry =
        topicContribs nodes sn entry.2.topicCounts := by
      simp only [entryContribs, hsn]
    rw [h2, lookupW_topicContribs nodes sn u v huv]
    unfold pairWeightEntry
    simp only [hsn, Option.map_some']
    apply congrArg List.sum
    apply List.map_congr_left
    intro tc _
    rcases h : (nodes.find? (fun n => n.metadataId == trimMd tc.1)).map (·.id)
      with _ | bid
    · simp [h]
    · simp [h]

theorem lookupW_storeContribs (nodes : List NodeL) (store : MetadataStore)
    (u v : String) (huv : u < v) :
    lookupW (storeContribs nodes store) (u, v) =
      pairWeight store nodes u v := by
  unfold storeContribs pairWeight
  rw [lookupW_flatten, List.map_map]
  have : (fun l => lookupW l (u, v)) ∘ entryContribs nodes =
      pairWeightEntry nodes u v := by
    funext entry
    exact lookupW_entryContribs nodes entry u v huv
  rw [this]

theorem init_positions_map_id (ip : ℕ → ℕ → Vec3Q) (nodes : List NodeL) :
    (init_random_positions ip nodes).map (·.id) = nodes.map (·.id) := by
  unfold init_random_positions
  rw [List.map_map]
  have : ((fun n : NodeL => n.id) ∘ fun p : ℕ × NodeL =>
      ({ p.2 with data := { p.2.data with
          position := ip p.1 nodes.length,
          velocity := Vec3Q.zero } } : NodeL)) =
      (fun n : NodeL => n.id) ∘ Prod.snd := rfl
  rw [this, ← List.map_map, List.enum_map_snd]

theorem enumFrom_map_find_id (ip : ℕ → ℕ → Vec3Q) (total : ℕ) (m : String) :
    ∀ (ns : List NodeL) (k : ℕ),
      (((ns.enumFrom k).map (fun p : ℕ × NodeL =>
          ({ p.2 with data := { p.2.data with
              position := ip p.1 total,
              velocity := Vec3Q.zero } } : NodeL))).find?
            (fun n => n.metadataId == m)).map (·.id) =
        (ns.find? (fun n => n.metadataId == m)).map (·.id) := by
  intro ns
  induction ns with
  | nil => intro k; rfl
  | cons a l ih =>
      intro k
      show ((List.find? (fun n => n.metadataId == m)
        (({ a with data := { a.data with
            position := ip k total, velocity := Vec3Q.zero } } : NodeL) ::
          (l.enumFrom (k + 1)).map _))).map (·.id) = _
      cases h : a.metadataId == m with
      | true =>
          rw [List.find?_cons_of_pos _ (by exact h),
            List.find?_cons_of_pos _ (by exact h)]
          rfl
      | false =>
          rw [List.find?_cons_of_neg _ (by simp [h]),
            List.find?_cons_of_neg _ (by simp [h])]
          exact ih (k + 1)

theorem init_positions_find_id (ip : ℕ → ℕ → Vec3Q) (nodes : List NodeL)
    (m : String) :
    ((init_random_positions ip nodes).find?
        (fun n => n.metadataId == m)).map (·.id) =
      (nodes.find? (fun n => n.metadataId == m)).map (·.id) :=
  enumFrom_map_find_id ip nodes.length m nodes 0

theorem pairWeightEntry_init (ip : ℕ → ℕ → Vec3Q) (nodes : List NodeL)
    (u v : String) (entry : String × MetadataL) :
    pairWeightEntry (init_random_positions ip nodes) u v entry =
      pairWeightEntry nodes u v entry := by
  unfold pairWeightEntry
  apply congrArg List.sum
  apply List.map_congr_left
  intro tc _
  rw [init_positions_find_id, init_positions_find_id]

theorem pairWeight_init (ip : ℕ → ℕ → Vec3Q) (store : MetadataStore)
    (nodes : List NodeL) (u v : String) :
    pairWeight store (init_random_positions ip nodes) u v =
      pairWeight store nodes u v := by
  unfold pairWeight
  apply congrArg List.sum
  apply List.map_congr_left
  intro entry _
  exact pairWeightEntry_init ip nodes u v entry

theorem orderKey_cases (a b : String) :
    orderKey a b = (a, b) ∨ orderKey a b = (b, a) := by
  unfold orderKey
  split
  · exact Or.inl rfl
  · exact Or.inr rfl

/-- C4 (confirmed): in every graph produced by the builder, each edge
has `source ≠ target`, both endpoints are ids of nodes in the graph,
its weight is the sum of all topic counts in either direction between
the pair, and there is at most one edge per unordered pair of node
ids. -/
theorem c4_edge_invariants (massOf : ℕ → ℕ) (ip : ℕ → ℕ → Vec3Q)
    (c0 : ℕ) (order : List String) (store : MetadataStore) :
    (∀ e ∈ (build_graph_from_metadata massOf ip c0 order store).edges,
       e.source ≠ e.target ∧
       (∃ n ∈ (build_graph_from_metadata massOf ip c0 order store).nodes,
          n.id = e.source) ∧
       (∃ n ∈ (build_graph_from_metadata massOf ip c0 order store).nodes,
          n.id = e.target) ∧
       e.weight = pairWeight store
         (build_graph_from_metadata massOf ip c0 order store).nodes
         e.source e.target) ∧
    (build_graph_from_metadata massOf ip c0 order store).edges.Pairwise
      (fun e₁ e₂ =>
        ¬((e₁.source = e₂.source ∧ e₁.target = e₂.target) ∨
          (e₁.source = e₂.target ∧ e₁.target = e₂.source))) := by
  set ns := (build_nodes massOf c0 order store).nodes with hns
  have hedges : (build_graph_from_metadata massOf ip c0 order store).edges
      = (build_edge_map ns store).map
          (fun p => (⟨p.1.1, p.1.2, p.2⟩ : EdgeL)) := rfl
  have hgnodes : (build_graph_from_metadata massOf ip c0 order store).nodes
      = init_random_positions ip ns := rfl
  set em := build_edge_map ns store with hem
  have hemf : em = (storeContribs ns store).foldl updW [] :=
    build_edge_map_eq_foldW ns store
  have hnodup : (em.map (·.1)).Nodup := by
    rw [hemf]
    exact foldW_keys_nodup _ [] (by simp)
  have hshape : ∀ p ∈ em, p.1.1 < p.1.2 ∧
      p.1.1 ∈ ns.map (·.id) ∧ p.1.2 ∈ ns.map (·.id) := by
    intro p hp
    have hk : p.1 ∈ em.map (·.1) := List.mem_map_of_mem _ hp
    rw [hemf] at hk
    rcases foldW_keys_sub _ [] p.1 hk with h0 | h1
    · simp at h0
    · rw [List.mem_map] at h1
      obtain ⟨c, hc, hck⟩ := h1
      obtain ⟨sn, tn, hsn, htn, hid, hkey⟩ := storeContribs_shape ns store c hc
      have hp1 : p.1 = orderKey sn.id tn.id := by rw [← hck, hkey]
      refine ⟨by rw [hp1]; exact orderKey_fst_lt_snd sn.id tn.id hid, ?_⟩
      rcases orderKey_cases sn.id tn.id with ho | ho
      · rw [hp1, ho]
        exact ⟨List.mem_map_of_mem _ hsn, List.mem_map_of_mem _ htn⟩
      · rw [hp1, ho]
        exact ⟨List.mem_map_of_mem _ htn, List.mem_map_of_mem _ hsn⟩
  have hweight : ∀ p ∈ em, p.2 = pairWeight store ns p.1.1 p.1.2 := by
    intro p hp
    have h1 : p.2 = lookupW em p.1 := mem_weight_eq_lookupW em hnodup p hp
    have h2 : lookupW em p.1 = lookupW (storeContribs ns store) p.1 := by
      rw [hemf, foldW_lookupW]
      simp [lookupW_nil]
    have h3 : lookupW (storeContribs ns store) (p.1.1, p.1.2) =
        pairWeight store ns p.1.1 p.1.2 :=
      lookupW_storeContribs ns store p.1.1 p.1.2 (hshape p hp).1
    rw [h1, h2, ← h3]
  constructor
  · intro e he
    rw [hedges, List.mem_map] at he
    obtain ⟨p, hp, rfl⟩ := he
    have hs := hshape p hp
    refine ⟨ne_of_lt hs.1, ?_, ?_, ?_⟩
    · have hmem : p.1.1 ∈ (init_random_positions ip ns).map (·.id) := by
        rw [init_positions_map_id]
        exact hs.2.1
      rw [List.mem_map] at hmem
      obtain ⟨n, hn, hnid⟩ := hmem
      exact ⟨n, by rw [hgnodes]; exact hn, hnid⟩
    · have hmem : p.1.2 ∈ (init_random_positions ip ns).map (·.id) := by
        rw [init_positions_map_id]
        exact hs.2.2
      rw [List.mem_map] at hmem
      obtain ⟨n, hn, hnid⟩ := hmem
      exact ⟨n, by rw [hgnodes]; exact hn, hnid⟩
    · rw [hgnodes, pairWeight_init]
      exact hweight p hp
  · rw [hedges, List.pairwise_map]
    have hnd : em.Pairwise (fun p q => p.1 ≠ q.1) :=
      (List.pairwise_map).mp hnodup
    refine hnd.imp_of_mem ?_
    intro p q hp hq hne
    rintro (⟨h1, h2⟩ | ⟨h1, h2⟩)
    · exact hne (Prod.ext_iff.mpr ⟨h1, h2⟩)
    · have hp1 := (hshape p hp).1
      have hq1 := (hshape q hq).1
      dsimp only at h1 h2
      rw [h1, h2] at hp1
      exact absurd hp1 (lt_asymm hq1)

/-! ## CPU force-directed layout (services/graph_service.rs 596-788)

`calculate_layout_cpu` takes a snapshot of the nodes, accumulates
pairwise repulsion over the `i < j` index pairs and spring forces over
the edges into a force array, then integrates velocities and positions
and applies the boundary constraints.  `f32::sqrt` is the oracle
parameter `sqrtQ`; force-array indexing (`forces[i]` paired with
`graph.nodes` enumeration) is rendered as a `zip`, which agrees with
the source because the force list has exactly one entry per node. -/

/-- A placeholder node for out-of-range `getD` reads (never hit on the
in-range indices the proofs use). -/
def defaultNode : NodeL :=
  ⟨"", "", "", none, [], 0, ⟨Vec3Q.zero, Vec3Q.zero, 0, 0, (0, 0)⟩⟩

/-- In-place update of one force accumulator (`forces[i] op= f`). -/
def modifyAt {α : Type} (f : α → α) : ℕ → List α → List α
  | _, [] => []
  | 0, a :: as => f a :: as
  | n + 1, a :: as => a :: modifyAt f n as

/-- The `i < j` pair indices of the O(n²) repulsion loop, in loop
order. -/
def pairList (n : ℕ) : List (ℕ × ℕ) :=
  ((List.range n).map (fun i =>
    ((List.range n).filter (fun j => i < j)).map (fun j => (i, j)))).flatten

/-- Source lines 629-681, one iteration of the repulsion double loop:
skip near-coincident pairs (`d² < 0.0001`) and pairs beyond
`max_repulsion_distance`, otherwise push the nodes apart with
`repulsion·mᵢ·mⱼ/d²` along the normalized direction, equal and
opposite. -/
def repStep (sqrtQ : ℚ → ℚ) (params : SimulationParamsL)
    (snapshot : List NodeL) (forces : List Vec3Q) (ij : ℕ × ℕ) :
    List Vec3Q :=
  let ni := snapshot.getD ij.1 defaultNode
  let nj := snapshot.getD ij.2 defaultNode
  let dx := nj.data.position.1 - ni.data.position.1
  let dy := nj.data.position.2.1 - ni.data.position.2.1
  let dz := nj.data.position.2.2 - ni.data.position.2.2
  let d2 := dx * dx + dy * dy + dz * dz
  if d2 < 1 / 10000 then forces
  else
    let dist := sqrtQ d2
    if params.maxRepulsionDistance < dist then forces
    else
      let mi := (ni.data.mass : ℚ) / 255 * 10 * params.massScale
      let mj := (nj.data.mass : ℚ) / 255 * 10 * params.massScale
      let factor := params.repulsion * mi * mj / d2
      let f : Vec3Q :=
        (dx / dist * factor, dy / dist * factor, dz / dist * factor)
      modifyAt (fun w => w + f) ij.2 (modifyAt (fun w => w - f) ij.1 forces)

/-- Source lines 684-729, one edge of the spring pass: locate the
endpoints by id, skip near-coincident endpoints, otherwise pull the
endpoints together with `spring_strength·w·d`, equal and opposite. -/
def springStep (sqrtQ : ℚ → ℚ) (params : SimulationParamsL)
    (nodes : List NodeL) (forces : List Vec3Q) (e : EdgeL) :
    List Vec3Q :=
  match nodes.findIdx? (fun n => n.id == e.source),
        nodes.findIdx? (fun n => n.id == e.target) with
  | some i, some j =>
      let ni := nodes.getD i defaultNode
      let nj := nodes.getD j defaultNode
      let dx := nj.data.position.1 - ni.data.position.1
      let dy := nj.data.position.2.1 - ni.data.position.2.1
      let dz := nj.data.position.2.2 - ni.data.position.2.2
      let d2 := dx * dx + dy * dy + dz * dz
      if d2 < 1 / 10000 then forces
      else
        let dist := sqrtQ d2
        let factor := params.springStrength * e.weight * dist
        let f : Vec3Q :=
          (dx / dist * factor, dy / dist * factor, dz / dist * factor)
        modifyAt (fun w => w - f) j (modifyAt (fun w => w + f) i forces)
  | _, _ => forces

/-- The force-accumulation phase of `calculate_layout_cpu`: zeroed
accumulators, the O(n²) repulsion pass, then the spring pass. -/
def computeForcesCpu (sqrtQ : ℚ → ℚ) (params : SimulationParamsL)
    (nodes : List NodeL) (edges : List EdgeL) : List Vec3Q :=
  let init := List.replicate nodes.length Vec3Q.zero
  let afterRep := (pairList nodes.length).foldl
    (repStep sqrtQ params nodes) init
  edges.foldl (springStep sqrtQ params nodes) afterRep

/-- Source lines 732-741: `v ← v·damping + F·time_step` then
`p ← p + v·time_step` (with the freshly updated `v`). -/
def integrateRaw (params : SimulationParamsL) (f : Vec3Q) (n : NodeL) :
    NodeL :=
  let v : Vec3Q :=
    (n.data.velocity.1 * params.damping + f.1 * params.timeStep,
     n.data.velocity.2.1 * params.damping + f.2.1 * params.timeStep,
     n.data.velocity.2.2 * params.damping + f.2.2 * params.timeStep)
  let p : Vec3Q :=
    (n.data.position.1 + v.1 * params.timeStep,
     n.data.position.2.1 + v.2.1 * params.timeStep,
     n.data.position.2.2 + v.2.2 * params.timeStep)
  { n with data := { n.data with position := p, velocity := v } }

/-- Source lines 751-757 (one axis): clamp the position to
`±half_bounds` and reverse the velocity scaled by `boundary_damping`
when the boundary is exceeded. -/
def clampAxis (halfBounds bd : ℚ) (pv : ℚ × ℚ) : ℚ × ℚ :=
  if pv.1 > halfBounds then (halfBounds, -pv.2 * bd)
  else if pv.1 < -halfBounds then (-halfBounds, -pv.2 * bd)
  else pv

/-- Source lines 744-774: the boundary constraint applied to all three
axes of an integrated node. -/
def clampNode (params : SimulationParamsL) (n : NodeL) : NodeL :=
  let half := params.viewportBounds / 2
  let ax := clampAxis half params.boundaryDamping
    (n.data.position.1, n.data.velocity.1)
  let ay := clampAxis half params.boundaryDamping
    (n.data.position.2.1, n.data.velocity.2.1)
  let az := clampAxis half params.boundaryDamping
    (n.data.position.2.2, n.data.velocity.2.2)
  { n with data := { n.data with
      position := (ax.1, ay.1, az.1),
      velocity := (ax.2, ay.2, az.2) } }

/-- One node's full update: integration, then bounds when enabled. -/
def integrateNode (params : SimulationParamsL) (f : Vec3Q) (n : NodeL) :
    NodeL :=
  if params.enableBounds then clampNode params (integrateRaw params f n)
  else integrateRaw params f n

/-- Source: `GraphService::calculate_layout_cpu` (lines 596-788):
early-return on an empty graph, otherwise compute forces from the
snapshot and update every node. -/
def calculate_layout_cpu (sqrtQ : ℚ → ℚ) (params : SimulationParamsL)
    (g : GraphDataL) : GraphDataL :=
  if g.nodes.isEmpty then g
  else
    let forces := computeForcesCpu sqrtQ params g.nodes g.edges
    { g with nodes :=
        (g.nodes.zip forces).map (fun p => integrateNode params p.2 p.1) }

/-- What the boundary pass does on one axis: clamp + reverse scaled
velocity when exceeded, untouched otherwise. -/
def ClampSpec (half bd : ℚ) (pre post : ℚ × ℚ) : Prop :=
  (pre.1 > half → post = (half, -pre.2 * bd)) ∧
  (pre.1 < -half → pre.1 ≤ half → post = (-half, -pre.2 * bd)) ∧
  (-half ≤ pre.1 → pre.1 ≤ half → post = pre)

theorem clampAxis_clampSpec (half bd : ℚ) (pv : ℚ × ℚ) :
    ClampSpec half bd pv (clampAxis half bd pv) := by
  refine ⟨?_, ?_, ?_⟩
  · intro h
    unfold clampAxis
    rw [if_pos h]
  · intro h hle
    unfold clampAxis
    rw [if_neg (not_lt.mpr hle), if_pos h]
  · intro h1 h2
    unfold clampAxis
    rw [if_neg (not_lt.mpr h2), if_neg (not_lt.mpr h1)]

theorem clampAxis_abs (half bd : ℚ) (h : 0 ≤ half) (pv : ℚ × ℚ) :
    |(clampAxis half bd pv).1| ≤ half := by
  unfold clampAxis
  split_ifs with h1 h2
  · simp [abs_of_nonneg h]
  · simp [abs_of_nonneg h]
  · exact abs_le.mpr ⟨not_lt.mp h2, not_lt.mp h1⟩

/-- C5 (corrected): with `enable_bounds = true` and a nonnegative
`viewport_bounds`, after a CPU step every node's position satisfies
`|pₖ| ≤ viewport_bounds/2` on each axis, and each output node is the
boundary clamp of the integrated node, with the clamped axes'
velocities reversed and scaled by `boundary_damping`
(`ClampSpec`). -/
theorem c5_bounds_after_step (sqrtQ : ℚ → ℚ) (params : SimulationParamsL)
    (g : GraphDataL) (hb : params.enableBounds = true)
    (hv : 0 ≤ params.viewportBounds) :
    ∀ n' ∈ (calculate_layout_cpu sqrtQ params g).nodes,
      (|Vec3Q.x n'.data.position| ≤ params.viewportBounds / 2 ∧
       |Vec3Q.y n'.data.position| ≤ params.viewportBounds / 2 ∧
       |Vec3Q.z n'.data.position| ≤ params.viewportBounds / 2) ∧
      ∃ n ∈ g.nodes, ∃ f : Vec3Q,
        n' = clampNode params (integrateRaw params f n) ∧
        ClampSpec (params.viewportBounds / 2) params.boundaryDamping
          ((integrateRaw params f n).data.position.1,
           (integrateRaw params f n).data.velocity.1)
          (n'.data.position.1, n'.data.velocity.1) ∧
        ClampSpec (params.viewportBounds / 2) params.boundaryDamping
          ((integrateRaw params f n).data.position.2.1,
           (integrateRaw params f n).data.velocity.2.1)
          (n'.data.position.2.1, n'.data.velocity.2.1) ∧
        ClampSpec (params.viewportBounds / 2) params.boundaryDamping
          ((integrateRaw params f n).data.position.2.2,
           (integrateRaw params f n).data.velocity.2.2)
          (n'.data.position.2.2, n'.data.velocity.2.2) := by
  intro n' hn'
  unfold calculate_layout_cpu at hn'
  by_cases hempty : g.nodes.isEmpty
  · rw [if_pos hempty] at hn'
    rw [List.isEmpty_iff] at hempty
    rw [hempty] at hn'
    cases hn'
  · rw [if_neg hempty] at hn'
    obtain ⟨p, hmem, rfl⟩ := List.mem_map.mp hn'
    obtain ⟨n, f⟩ := p
    have hnmem : n ∈ g.nodes := (List.of_mem_zip hmem).1
    have hhalf : 0 ≤ params.viewportBounds / 2 :=
      div_nonneg hv (by norm_num)
    have hint : integrateNode params (n, f).2 (n, f).1 =
        clampNode params (integrateRaw params f n) := by
      show integrateNode params f n = _
      unfold integrateNode
      rw [hb]
      simp
    rw [hint]
    constructor
    · exact ⟨clampAxis_abs _ _ hhalf _, clampAxis_abs _ _ hhalf _,
        clampAxis_abs _ _ hhalf _⟩
    · exact ⟨n, hnmem, f, rfl, clampAxis_clampSpec _ _ _,
        clampAxis_clampSpec _ _ _, clampAxis_clampSpec _ _ _⟩


/-- On a one-node, no-edge graph the force passes are empty and the
step is the integration of a zero force. -/
theorem calc_layout_one_node (sqrtQ : ℚ → ℚ) (params : SimulationParamsL)
    (n0 : NodeL) :
    (calculate_layout_cpu sqrtQ params
        { nodes := [n0], edges := [], metadata := [],
          idToMetadata := [] }).nodes =
      [integrateNode params Vec3Q.zero n0] := by
  have hpair : pairList 1 = [] := by decide
  simp [calculate_layout_cpu, computeForcesCpu, hpair]

/-- Parameters with a negative viewport: bounds enabled, size −2. -/
def paramsNegBounds : SimulationParamsL :=
  { springStrength := 1, repulsion := 1, damping := 1 / 2,
    maxRepulsionDistance := 10, viewportBounds := -2, massScale := 1,
    boundaryDamping := 1 / 2, enableBounds := true, timeStep := 16 / 1000 }

/-- C5 (counterexample): with `enable_bounds = true` but a negative
`viewport_bounds` (−2, allowed by the parameter model), a single node
resting at the origin is moved to x = −1 by the clamping chain
(`0 > half_bounds = −1` takes the first branch), and
`|x| = 1 ≤ viewport_bounds/2 = −1` fails — so the claim does not hold
for every graph state and parameter set. -/
theorem c5_counterexample :
    ¬ (∀ n' ∈ (calculate_layout_cpu (fun _ => 0) paramsNegBounds
          oneNodeGraph).nodes,
        |Vec3Q.x n'.data.position| ≤ paramsNegBounds.viewportBounds / 2) := by
  intro h
  have he : oneNodeGraph =
      { nodes := [oneNodeGraph.nodes.getD 0 defaultNode], edges := [],
        metadata := [], idToMetadata := [] } := rfl
  have hmem : integrateNode paramsNegBounds Vec3Q.zero
      (oneNodeGraph.nodes.getD 0 defaultNode) ∈
      (calculate_layout_cpu (fun _ => 0) paramsNegBounds
        oneNodeGraph).nodes := by
    rw [he, calc_layout_one_node]
    exact List.mem_singleton_self _
  have h1 := h _ hmem
  revert h1
  norm_num [integrateNode, integrateRaw, clampNode, clampAxis,
    paramsNegBounds, oneNodeGraph, Vec3Q.zero, Vec3Q.x, defaultNode]

/-- The spec's scenario-5 parameters: bounds 10, boundary damping 0.5,
damping 0.9, ~60 fps time step. -/
def paramsScenario : SimulationParamsL :=
  { springStrength := 1, repulsion := 1, damping := 9 / 10,
    maxRepulsionDistance := 10, viewportBounds := 10, massScale := 1,
    boundaryDamping := 1 / 2, enableBounds := true, timeStep := 16 / 1000 }

/-- The spec's scenario-5 graph: one node at (6,0,0) with velocity
(+1,0,0). -/
def graphScenario : GraphDataL :=
  { nodes := [⟨"0", "a", "a", none, [], 0,
      ⟨(6, 0, 0), (1, 0, 0), 0, 1, (0, 0)⟩⟩],
    edges := [], metadata := [], idToMetadata := [] }

/-- The node after one CPU step of the scenario. -/
def scenarioResult : NodeL :=
  (calculate_layout_cpu (fun _ => 0) paramsScenario graphScenario).nodes.getD
    0 defaultNode

/-- Scenario 5 evaluated concretely: the node ends at exactly x = 5
with velocity x = −0.45 ≤ 0 (pre-clamp: v = 0.9, x = 6.0144 > 5). -/
theorem scenario5_concrete :
    scenarioResult.data.position = ((5 : ℚ), 0, 0) ∧
      scenarioResult.data.velocity.1 = -(9 / 20 : ℚ) := by
  have he : graphScenario =
      { nodes := [graphScenario.nodes.getD 0 defaultNode], edges := [],
        metadata := [], idToMetadata := [] } := rfl
  have hres : scenarioResult = integrateNode paramsScenario Vec3Q.zero
      (graphScenario.nodes.getD 0 defaultNode) := by
    unfold scenarioResult
    rw [he, calc_layout_one_node]
    rfl
  rw [hres]
  norm_num [integrateNode, integrateRaw, clampNode, clampAxis,
    paramsScenario, graphScenario, Vec3Q.zero, defaultNode, Prod.ext_iff]

/-- C5 (witness): the bounds theorem applied to scenario 5 — the
hypotheses hold (`enable_bounds = true`, `0 ≤ 10`) and the resulting
node satisfies the x-axis bound. -/
theorem c5_bounds_after_step_witness :
    paramsScenario.enableBounds = true ∧
    (0 : ℚ) ≤ paramsScenario.viewportBounds ∧
    |Vec3Q.x scenarioResult.data.position| ≤
      paramsScenario.viewportBounds / 2 := by
  refine ⟨rfl, by norm_num [paramsScenario], ?_⟩
  have he : graphScenario =
      { nodes := [graphScenario.nodes.getD 0 defaultNode], edges := [],
        metadata := [], idToMetadata := [] } := rfl
  have hmem : scenarioResult ∈ (calculate_layout_cpu (fun _ => 0)
      paramsScenario graphScenario).nodes := by
    unfold scenarioResult
    rw [he, calc_layout_one_node]
    exact List.mem_singleton_self _
  exact (c5_bounds_after_step (fun _ => 0) paramsScenario graphScenario
    rfl (by norm_num [paramsScenario]) scenarioResult hmem).1.1

/-! ## The CPU step computes the spec's force formula (claim C6)

The per-pair repulsion vector shared by both loop arms, the per-edge
spring contribution, and the extraction of the imperative force folds
into per-node sums. -/

/-- The (guarded) repulsion vector `f` of one `(i, j)` loop iteration:
zero when the pair is skipped, otherwise
`(pⱼ−pᵢ)/d · repulsion·mᵢ·mⱼ/d²`; it is subtracted at `i` and added at
`j`. -/
def repPairForce (sqrtQ : ℚ → ℚ) (params : SimulationParamsL)
    (snapshot : List NodeL) (ij : ℕ × ℕ) : Vec3Q :=
  let ni := snapshot.getD ij.1 defaultNode
  let nj := snapshot.getD ij.2 defaultNode
  let dx := nj.data.position.1 - ni.data.position.1
  let dy := nj.data.position.2.1 - ni.data.position.2.1
  let dz := nj.data.position.2.2 - ni.data.position.2.2
  let d2 := dx * dx + dy * dy + dz * dz
  if d2 < 1 / 10000 then Vec3Q.zero
  else
    let dist := sqrtQ d2
    if params.maxRepulsionDistance < dist then Vec3Q.zero
    else
      let mi := (ni.data.mass : ℚ) / 255 * 10 * params.massScale
      let mj := (nj.data.mass : ℚ) / 255 * 10 * params.massScale
      let factor := params.repulsion * mi * mj / d2
      (dx / dist * factor, dy / dist * factor, dz / dist * factor)

/-- What one repulsion pair contributes to the force accumulator of
node `k`. -/
def gRep (sqrtQ : ℚ → ℚ) (params : SimulationParamsL)
    (snapshot : List NodeL) (ij : ℕ × ℕ) (k : ℕ) : Vec3Q :=
  (if k = ij.1 then -repPairForce sqrtQ params snapshot ij else 0) +
    (if k = ij.2 then repPairForce sqrtQ params snapshot ij else 0)

/-- The (guarded) spring vector of one edge between node indices `i`
(source) and `j` (target): zero when the `d² ≥ 10⁻⁴` floor skips the
edge, otherwise `spring_strength·w·d·(pⱼ−pᵢ)/d`; it is added at `i`
and subtracted at `j`. -/
def springPairForce (sqrtQ : ℚ → ℚ) (params : SimulationParamsL)
    (nodes : List NodeL) (e : EdgeL) (i j : ℕ) : Vec3Q :=
  let ni := nodes.getD i defaultNode
  let nj := nodes.getD j defaultNode
  let dx := nj.data.position.1 - ni.data.position.1
  let dy := nj.data.position.2.1 - ni.data.position.2.1
  let dz := nj.data.position.2.2 - ni.data.position.2.2
  let d2 := dx * dx + dy * dy + dz * dz
  if d2 < 1 / 10000 then Vec3Q.zero
  else
    let dist := sqrtQ d2
    let factor := params.springStrength * e.weight * dist
    (dx / dist * factor, dy / dist * factor, dz / dist * factor)

/-- The claim's spring term for node index `k` and one edge:
`spring_strength·w·d·(pⱼ−pᵢ)/d` applied +at the source index and −at
the target index, with the `d² ≥ 10⁻⁴` floor inside
`springPairForce`. -/
def specSpringForce (sqrtQ : ℚ → ℚ) (params : SimulationParamsL)
    (nodes : List NodeL) (k : ℕ) (e : EdgeL) : Vec3Q :=
  match nodes.findIdx? (fun n => n.id == e.source),
        nodes.findIdx? (fun n => n.id == e.target) with
  | some i, some j =>
      (if k = i then springPairForce sqrtQ params nodes e i j else 0) +
        (if k = j then -springPairForce sqrtQ params nodes e i j else 0)
  | _, _ => Vec3Q.zero

theorem modifyAt_length {α : Type} (f : α → α) :
    ∀ (i : ℕ) (l : List α), (modifyAt f i l).length = l.length := by
  intro i
  induction i generalizing f with
  | zero => intro l; cases l <;> rfl
  | succ n ih =>
      intro l
      cases l with
      | nil => rfl
      | cons a as => simp [modifyAt, ih]

theorem modifyAt_getD {α : Type} (f : α → α) (d : α) :
    ∀ (l : List α) (i k : ℕ), k < l.length →
      (modifyAt f i l).getD k d =
        if k = i then f (l.getD k d) else l.getD k d := by
  intro l
  induction l with
  | nil => intro i k hk; cases hk
  | cons a as ih =>
      intro i k hk
      cases i with
      | zero =>
          cases k with
          | zero => simp [modifyAt]
          | succ k' => simp [modifyAt]
      | succ i' =>
          cases k with
          | zero => simp [modifyAt]
          | succ k' =>
              have hk' : k' < as.length := by
                simpa using Nat.lt_of_succ_lt_succ hk
              have h1 : (modifyAt f (i' + 1) (a :: as)).getD (k' + 1) d =
                  (modifyAt f i' as).getD k' d := rfl
              have h2 : (a :: as).getD (k' + 1) d = as.getD k' d := rfl
              rw [h1, h2, ih i' k' hk']
              simp

theorem foldl_preserves_length {β : Type}
    (step : List Vec3Q → β → List Vec3Q) :
    ∀ (L : List β),
      (∀ F b, b ∈ L → (step F b).length = F.length) →
      ∀ F : List Vec3Q, (L.foldl step F).length = F.length := by
  intro L
  induction L with
  | nil => intro _ F; rfl
  | cons b rest ih =>
      intro hlen F
      rw [List.foldl_cons]
      rw [ih (fun F' b' hb' => hlen F' b' (List.mem_cons_of_mem b hb'))]
      exact hlen F b (List.mem_cons_self b rest)

theorem foldl_contrib {β : Type} (step : List Vec3Q → β → List Vec3Q)
    (contrib : β → ℕ → Vec3Q) :
    ∀ (L : List β),
      (∀ F b, b ∈ L → (step F b).length = F.length) →
      (∀ F b, b ∈ L → ∀ k, k < F.length →
        (step F b).getD k Vec3Q.zero =
          F.getD k Vec3Q.zero + contrib b k) →
      ∀ (F : List Vec3Q) (k : ℕ), k < F.length →
        (L.foldl step F).getD k Vec3Q.zero =
          F.getD k Vec3Q.zero + (L.map (contrib · k)).sum := by
  intro L
  induction L with
  | nil => intro _ _ F k hk; simp
  | cons b rest ih =>
      intro hlen hget F k hk
      rw [List.foldl_cons, List.map_cons, List.sum_cons]
      have h1 : (step F b).length = F.length :=
        hlen F b (List.mem_cons_self b rest)
      rw [ih (fun F' b' hb' => hlen F' b' (List.mem_cons_of_mem b hb'))
            (fun F' b' hb' => hget F' b' (List.mem_cons_of_mem b hb'))
            (step F b) k (by rw [h1]; exact hk),
          hget F b (List.mem_cons_self b rest) k hk, add_assoc]


theorem modifyAt_id {α : Type} (f : α → α) (h : ∀ a, f a = a) :
    ∀ (i : ℕ) (l : List α), modifyAt f i l = l := by
  intro i
  induction i with
  | zero =>
      intro l
      cases l with
      | nil => rfl
      | cons a as => simp [modifyAt, h]
  | succ n ih =>
      intro l
      cases l with
      | nil => rfl
      | cons a as => simp [modifyAt, ih]

theorem repStep_eq (sqrtQ : ℚ → ℚ) (params : SimulationParamsL)
    (snapshot : List NodeL) (F : List Vec3Q) (ij : ℕ × ℕ) :
    repStep sqrtQ params snapshot F ij =
      modifyAt (fun w => w + repPairForce sqrtQ params snapshot ij) ij.2
        (modifyAt (fun w => w - repPairForce sqrtQ params snapshot ij)
          ij.1 F) := by
  simp only [repStep, repPairForce]
  split_ifs
  · rw [modifyAt_id _ (by intro a; simp [Vec3Q.zero]),
      modifyAt_id _ (by intro a; simp [Vec3Q.zero])]
  · rw [modifyAt_id _ (by intro a; simp [Vec3Q.zero]),
      modifyAt_id _ (by intro a; simp [Vec3Q.zero])]
  · rfl

theorem repStep_getD (sqrtQ : ℚ → ℚ) (params : SimulationParamsL)
    (snapshot : List NodeL) (F : List Vec3Q) (ij : ℕ × ℕ) (k : ℕ)
    (hk : k < F.length) :
    (repStep sqrtQ params snapshot F ij).getD k Vec3Q.zero =
      F.getD k Vec3Q.zero + gRep sqrtQ params snapshot ij k := by
  obtain ⟨i, j⟩ := ij
  rw [repStep_eq,
    modifyAt_getD _ _ _ j k (by rw [modifyAt_length]; exact hk),
    modifyAt_getD _ _ _ i k hk]
  unfold gRep
  by_cases hki : k = i
  · subst hki
    by_cases hkj : k = j
    · subst hkj
      simp
    · simp [hkj, Ne.symm hkj]
      abel
  · by_cases hkj : k = j
    · subst hkj
      simp [hki, Ne.symm hki]
    · simp [hki, hkj]

theorem springStep_eq (sqrtQ : ℚ → ℚ) (params : SimulationParamsL)
    (nodes : List NodeL) (F : List Vec3Q) (e : EdgeL) :
    springStep sqrtQ params nodes F e =
      match nodes.findIdx? (fun n => n.id == e.source),
            nodes.findIdx? (fun n => n.id == e.target) with
      | some i, some j =>
          modifyAt (fun w => w - springPairForce sqrtQ params nodes e i j)
            j (modifyAt
                (fun w => w + springPairForce sqrtQ params nodes e i j)
                i F)
      | _, _ => F := by
  unfold springStep springPairForce
  rcases hs : nodes.findIdx? (fun n => n.id == e.source) with _ | i <;>
    rcases ht : nodes.findIdx? (fun n => n.id == e.target) with _ | j <;>
    simp only [hs, ht]
  split_ifs
  · rw [modifyAt_id _ (by intro a; simp [Vec3Q.zero]),
      modifyAt_id _ (by intro a; simp [Vec3Q.zero])]
  · rfl

theorem springStep_getD (sqrtQ : ℚ → ℚ) (params : SimulationParamsL)
    (nodes : List NodeL) (F : List Vec3Q) (e : EdgeL) (k : ℕ)
    (hk : k < F.length) :
    (springStep sqrtQ params nodes F e).getD k Vec3Q.zero =
      F.getD k Vec3Q.zero + specSpringForce sqrtQ params nodes k e := by
  rw [springStep_eq]
  unfold specSpringForce
  rcases hs : nodes.findIdx? (fun n => n.id == e.source) with _ | i <;>
    rcases ht : nodes.findIdx? (fun n => n.id == e.target) with _ | j <;>
    simp only [hs, ht]
  · simp [Vec3Q.zero]
  · simp [Vec3Q.zero]
  · simp [Vec3Q.zero]
  · rw [modifyAt_getD _ _ _ j k (by rw [modifyAt_length]; exact hk),
      modifyAt_getD _ _ _ i k hk]
    by_cases hki : k = i
    · subst hki
      by_cases hkj : k = j
      · subst hkj
        simp
      · simp [hkj, Ne.symm hkj]
    · by_cases hkj : k = j
      · subst hkj
        simp [hki, Ne.symm hki]
        abel
      · simp [hki, hkj]

/-- The claim's repulsion term: the force on node `k` due to node `j`,
`repulsion·mₖ·mⱼ/d²·(pₖ−pⱼ)/d` with `mᵢ = (massᵢ/255)·10·mass_scale`,
applied only when `d² ≥ 10⁻⁴` and `d ≤ max_repulsion_distance`. -/
def specRepForce (sqrtQ : ℚ → ℚ) (params : SimulationParamsL)
    (nodes : List NodeL) (k j : ℕ) : Vec3Q :=
  let nk := nodes.getD k defaultNode
  let nj := nodes.getD j defaultNode
  let dx := nk.data.position.1 - nj.data.position.1
  let dy := nk.data.position.2.1 - nj.data.position.2.1
  let dz := nk.data.position.2.2 - nj.data.position.2.2
  let d2 := dx * dx + dy * dy + dz * dz
  if d2 < 1 / 10000 then Vec3Q.zero
  else
    let dist := sqrtQ d2
    if params.maxRepulsionDistance < dist then Vec3Q.zero
    else
      let ma := (nk.data.mass : ℚ) / 255 * 10 * params.massScale
      let mb := (nj.data.mass : ℚ) / 255 * 10 * params.massScale
      let factor := params.repulsion * ma * mb / d2
      (dx / dist * factor, dy / dist * factor, dz / dist * factor)

theorem specRep_eq_neg_pair (sqrtQ : ℚ → ℚ) (params : SimulationParamsL)
    (nodes : List NodeL) (k j : ℕ) :
    specRepForce sqrtQ params nodes k j =
      - repPairForce sqrtQ params nodes (k, j) := by
  simp only [specRepForce, repPairForce]
  set ax := (nodes.getD k defaultNode).data.position.1
  set ay := (nodes.getD k defaultNode).data.position.2.1
  set az := (nodes.getD k defaultNode).data.position.2.2
  set cx := (nodes.getD j defaultNode).data.position.1
  set cy := (nodes.getD j defaultNode).data.position.2.1
  set cz := (nodes.getD j defaultNode).data.position.2.2
  have hd2 : (cx - ax) * (cx - ax) + (cy - ay) * (cy - ay) +
      (cz - az) * (cz - az) =
      (ax - cx) * (ax - cx) + (ay - cy) * (ay - cy) +
        (az - cz) * (az - cz) := by ring
  rw [hd2]
  split_ifs
  · simp [Vec3Q.zero, Prod.ext_iff]
  · simp [Vec3Q.zero, Prod.ext_iff]
  · simp only [Prod.neg_mk, Prod.mk.injEq]
    refine ⟨by ring, by ring, by ring⟩

theorem repPair_swap (sqrtQ : ℚ → ℚ) (params : SimulationParamsL)
    (nodes : List NodeL) (i j : ℕ) :
    repPairForce sqrtQ params nodes (j, i) =
      - repPairForce sqrtQ params nodes (i, j) := by
  simp only [repPairForce]
  set ax := (nodes.getD i defaultNode).data.position.1
  set ay := (nodes.getD i defaultNode).data.position.2.1
  set az := (nodes.getD i defaultNode).data.position.2.2
  set cx := (nodes.getD j defaultNode).data.position.1
  set cy := (nodes.getD j defaultNode).data.position.2.1
  set cz := (nodes.getD j defaultNode).data.position.2.2
  have hd2 : (ax - cx) * (ax - cx) + (ay - cy) * (ay - cy) +
      (az - cz) * (az - cz) =
      (cx - ax) * (cx - ax) + (cy - ay) * (cy - ay) +
        (cz - az) * (cz - az) := by ring
  rw [hd2]
  split_ifs
  · simp [Vec3Q.zero, Prod.ext_iff]
  · simp [Vec3Q.zero, Prod.ext_iff]
  · simp only [Prod.neg_mk, Prod.mk.injEq]
    refine ⟨by ring, by ring, by ring⟩

theorem specRep_self (sqrtQ : ℚ → ℚ) (params : SimulationParamsL)
    (nodes : List NodeL) (k : ℕ) :
    specRepForce sqrtQ params nodes k k = 0 := by
  simp only [specRepForce]
  rw [if_pos]
  · rfl
  · set ax := (nodes.getD k defaultNode).data.position.1
    set ay := (nodes.getD k defaultNode).data.position.2.1
    set az := (nodes.getD k defaultNode).data.position.2.2
    have h0 : (ax - ax) * (ax - ax) + (ay - ay) * (ay - ay) +
        (az - az) * (az - az) = 0 := by ring
    rw [h0]
    norm_num

theorem sum_map_flatten {α : Type} (ls : List (List α)) (g : α → Vec3Q) :
    ((ls.flatten).map g).sum = (ls.map (fun l => (l.map g).sum)).sum := by
  induction ls with
  | nil => rfl
  | cons l rest ih =>
      simp [ih]
      rfl

theorem sum_map_filter {α : Type} (l : List α) (p : α → Bool)
    (f : α → Vec3Q) :
    ((l.filter p).map f).sum =
      (l.map (fun x => if p x = true then f x else 0)).sum := by
  induction l with
  | nil => rfl
  | cons a as ih =>
      rw [List.filter_cons]
      by_cases h : p a
      · simp only [h, if_true, List.map_cons, List.sum_cons, ih]
      · simp [h, ih]

theorem pairList_sum (n : ℕ) (g : ℕ × ℕ → Vec3Q) :
    ((pairList n).map g).sum =
      ∑ i in Finset.range n, ∑ j in Finset.range n,
        (if i < j then g (i, j) else 0) := by
  unfold pairList
  rw [sum_map_flatten, List.map_map]
  have hstep : ((List.range n).map ((fun l => (l.map g).sum) ∘ fun i =>
      ((List.range n).filter (fun j => i < j)).map (fun j => (i, j)))).sum =
      ((List.range n).map (fun i => ((List.range n).map
        (fun j => if i < j then g (i, j) else 0)).sum)).sum := by
    apply congrArg List.sum
    apply List.map_congr_left
    intro i _
    show ((((List.range n).filter (fun j => i < j)).map
      (fun j => (i, j))).map g).sum = _
    rw [List.map_map, sum_map_filter]
    apply congrArg List.sum
    apply List.map_congr_left
    intro j _
    simp
  rw [hstep]
  rfl

theorem pairSum_eq_specRepSum (sqrtQ : ℚ → ℚ) (params : SimulationParamsL)
    (nodes : List NodeL) (k : ℕ) (hk : k < nodes.length) :
    ((pairList nodes.length).map
      (fun ij => gRep sqrtQ params nodes ij k)).sum =
      ((List.range nodes.length).map
        (specRepForce sqrtQ params nodes k)).sum := by
  set n := nodes.length with hn
  set P := fun ij => repPairForce sqrtQ params nodes ij with hP
  rw [pairList_sum]
  have hmemk : k ∈ Finset.range n := Finset.mem_range.mpr hk
  have hRHS : ((List.range n).map (specRepForce sqrtQ params nodes k)).sum =
      ∑ j in Finset.range n, specRepForce sqrtQ params nodes k j := rfl
  rw [hRHS]
  have hsplit : ∀ i j : ℕ,
      (if i < j then gRep sqrtQ params nodes (i, j) k else 0) =
        (if k = i then (if i < j then -P (i, j) else 0) else 0) +
          (if k = j then (if i < j then P (i, j) else 0) else 0) := by
    intro i j
    by_cases hij : i < j <;>
      by_cases hki : k = i <;>
      by_cases hkj : k = j <;>
      simp [hij, hki, hkj, gRep, hP]
  have step1 : ∑ i in Finset.range n, ∑ j in Finset.range n,
      (if i < j then gRep sqrtQ params nodes (i, j) k else 0) =
      (∑ i in Finset.range n, ∑ j in Finset.range n,
        (if k = i then (if i < j then -P (i, j) else 0) else 0)) +
      (∑ i in Finset.range n, ∑ j in Finset.range n,
        (if k = j then (if i < j then P (i, j) else 0) else 0)) := by
    rw [← Finset.sum_add_distrib]
    apply Finset.sum_congr rfl
    intro i _
    rw [← Finset.sum_add_distrib]
    apply Finset.sum_congr rfl
    intro j _
    exact hsplit i j
  rw [step1]
  have hA : ∑ i in Finset.range n, ∑ j in Finset.range n,
      (if k = i then (if i < j then -P (i, j) else 0) else 0) =
      ∑ j in Finset.range n, (if k < j then -P (k, j) else 0) := by
    have := Finset.sum_ite_eq (Finset.range n) k
      (fun i => ∑ j in Finset.range n, (if i < j then -P (i, j) else 0))
    simp only [hmemk, if_pos] at this
    rw [← this]
    apply Finset.sum_congr rfl
    intro i _
    by_cases hki : k = i <;> simp [hki]
  have hB : ∑ i in Finset.range n, ∑ j in Finset.range n,
      (if k = j then (if i < j then P (i, j) else 0) else 0) =
      ∑ i in Finset.range n, (if i < k then P (i, k) else 0) := by
    rw [Finset.sum_comm]
    have := Finset.sum_ite_eq (Finset.range n) k
      (fun j => ∑ i in Finset.range n, (if i < j then P (i, j) else 0))
    simp only [hmemk, if_pos] at this
    rw [← this]
    apply Finset.sum_congr rfl
    intro j _
    by_cases hkj : k = j <;> simp [hkj]
  rw [hA, hB]
  have hRHSsplit : ∑ j in Finset.range n, specRepForce sqrtQ params nodes k j =
      (∑ j in Finset.range n,
        (if j < k then specRepForce sqrtQ params nodes k j else 0)) +
      (∑ j in Finset.range n,
        (if k < j then specRepForce sqrtQ params nodes k j else 0)) := by
    rw [← Finset.sum_add_distrib]
    apply Finset.sum_congr rfl
    intro j _
    rcases lt_trichotomy j k with h | h | h
    · simp [h, not_lt_of_gt h]
    · subst h
      simp [specRep_self]
    · simp [h, not_lt_of_gt h]
  rw [hRHSsplit]
  have hterm1 : ∑ j in Finset.range n, (if k < j then -P (k, j) else 0) =
      ∑ j in Finset.range n,
        (if k < j then specRepForce sqrtQ params nodes k j else 0) := by
    apply Finset.sum_congr rfl
    intro j _
    rw [hP]
    simp only [specRep_eq_neg_pair]
  have hterm2 : ∑ i in Finset.range n, (if i < k then P (i, k) else 0) =
      ∑ i in Finset.range n,
        (if i < k then specRepForce sqrtQ params nodes k i else 0) := by
    apply Finset.sum_congr rfl
    intro i _
    rw [hP]
    simp only [specRep_eq_neg_pair, repPair_swap sqrtQ params nodes k i]
  rw [hterm1, hterm2, add_comm]

/-- The claim's net force on node index `k`: the sum of the guarded
repulsion terms over all other nodes plus the spring terms over all
edges (with the `d² ≥ 10⁻⁴` floor also on springs — the amendment). -/
def specForce (sqrtQ : ℚ → ℚ) (params : SimulationParamsL)
    (nodes : List NodeL) (edges : List EdgeL) (k : ℕ) : Vec3Q :=
  ((List.range nodes.length).map (specRepForce sqrtQ params nodes k)).sum +
    (edges.map (specSpringForce sqrtQ params nodes k)).sum

/-- The spec-side force list, one entry per node index. -/
def specForces (sqrtQ : ℚ → ℚ) (params : SimulationParamsL)
    (nodes : List NodeL) (edges : List EdgeL) : List Vec3Q :=
  (List.range nodes.length).map (specForce sqrtQ params nodes edges)

theorem repStep_length (sqrtQ : ℚ → ℚ) (params : SimulationParamsL)
    (snapshot : List NodeL) (F : List Vec3Q) (ij : ℕ × ℕ) :
    (repStep sqrtQ params snapshot F ij).length = F.length := by
  rw [repStep_eq, modifyAt_length, modifyAt_length]

theorem springStep_length (sqrtQ : ℚ → ℚ) (params : SimulationParamsL)
    (nodes : List NodeL) (F : List Vec3Q) (e : EdgeL) :
    (springStep sqrtQ params nodes F e).length = F.length := by
  rw [springStep_eq]
  rcases hs : nodes.findIdx? (fun n => n.id == e.source) with _ | i <;>
    rcases ht : nodes.findIdx? (fun n => n.id == e.target) with _ | j <;>
    simp only [hs, ht]
  rw [modifyAt_length, modifyAt_length]

theorem getD_replicate_zero (n k : ℕ) :
    (List.replicate n Vec3Q.zero).getD k Vec3Q.zero = Vec3Q.zero := by
  induction n generalizing k with
  | zero => cases k <;> rfl
  | succ m ih => cases k with
      | zero => rfl
      | succ k' => exact ih k'

theorem computeForcesCpu_length (sqrtQ : ℚ → ℚ)
    (params : SimulationParamsL) (nodes : List NodeL)
    (edges : List EdgeL) :
    (computeForcesCpu sqrtQ params nodes edges).length = nodes.length := by
  unfold computeForcesCpu
  rw [foldl_preserves_length _ edges
      (fun F b _ => springStep_length sqrtQ params nodes F b),
    foldl_preserves_length _ (pairList nodes.length)
      (fun F b _ => repStep_length sqrtQ params nodes F b),
    List.length_replicate]

theorem computeForcesCpu_getD (sqrtQ : ℚ → ℚ)
    (params : SimulationParamsL) (nodes : List NodeL)
    (edges : List EdgeL) (k : ℕ) (hk : k < nodes.length) :
    (computeForcesCpu sqrtQ params nodes edges).getD k Vec3Q.zero =
      specForce sqrtQ params nodes edges k := by
  unfold computeForcesCpu specForce
  have hrepfold : ((pairList nodes.length).foldl
      (repStep sqrtQ params nodes)
      (List.replicate nodes.length Vec3Q.zero)).length = nodes.length := by
    rw [foldl_preserves_length _ (pairList nodes.length)
        (fun F b _ => repStep_length sqrtQ params nodes F b),
      List.length_replicate]
  rw [foldl_contrib (springStep sqrtQ params nodes)
      (fun e k => specSpringForce sqrtQ params nodes k e) edges
      (fun F b _ => springStep_length sqrtQ params nodes F b)
      (fun F b _ k hk' => springStep_getD sqrtQ params nodes F b k hk')
      _ k (by rw [hrepfold]; exact hk)]
  rw [foldl_contrib (repStep sqrtQ params nodes)
      (fun ij k => gRep sqrtQ params nodes ij k) (pairList nodes.length)
      (fun F b _ => repStep_length sqrtQ params nodes F b)
      (fun F b _ k hk' => repStep_getD sqrtQ params nodes F b k hk')
      _ k (by rw [List.length_replicate]; exact hk)]
  rw [getD_replicate_zero, pairSum_eq_specRepSum sqrtQ params nodes k hk]
  show Vec3Q.zero + _ + _ = _
  rw [show (Vec3Q.zero : Vec3Q) = 0 from rfl, zero_add]

theorem computeForces_eq_specForces (sqrtQ : ℚ → ℚ)
    (params : SimulationParamsL) (nodes : List NodeL)
    (edges : List EdgeL) :
    computeForcesCpu sqrtQ params nodes edges =
      specForces sqrtQ params nodes edges := by
  apply List.ext_getElem
  · rw [computeForcesCpu_length]
    simp [specForces]
  · intro i h1 h2
    have hi : i < nodes.length := by
      rw [computeForcesCpu_length] at h1
      exact h1
    have hD := computeForcesCpu_getD sqrtQ params nodes edges i hi
    rw [List.getD_eq_getElem _ _ h1] at hD
    rw [hD]
    simp [specForces]

/-- C6 (corrected): with `enable_bounds = false` (the claim describes
the step before the boundary pass), one CPU step maps every node
through `v ← v·damping + F·time_step`, `p ← p + v·time_step`, where
`F` is computed from the pre-step snapshot as the sum of the guarded
pairwise repulsion terms (`repulsion·mᵢ·mⱼ/d²`, floor `d² ≥ 10⁻⁴`,
cutoff `d ≤ max_repulsion_distance`) and the spring terms
(`spring_strength·wᵢⱼ·d`), the latter also applied only to edges whose
endpoint pair passes the `d² ≥ 10⁻⁴` floor. -/
theorem c6_step_computes_forces (sqrtQ : ℚ → ℚ)
    (params : SimulationParamsL) (g : GraphDataL)
    (hb : params.enableBounds = false) :
    calculate_layout_cpu sqrtQ params g =
      if g.nodes.isEmpty then g
      else
        { g with
          nodes :=
            (g.nodes.zip (specForces sqrtQ params g.nodes g.edges)).map
              (fun p => integrateRaw params p.2 p.1) } := by
  unfold calculate_layout_cpu
  by_cases he : g.nodes.isEmpty
  · rw [if_pos he, if_pos he]
  · rw [if_neg he, if_neg he]
    rw [computeForces_eq_specForces]
    dsimp only
    congr 1
    apply List.map_congr_left
    intro p _
    unfold integrateNode
    rw [hb]
    simp

/-- The claim's spring vector as literally stated — WITHOUT the
`d² ≥ 10⁻⁴` floor: `spring_strength·w·d·(pⱼ−pᵢ)/d` for every edge. -/
def springPairForceClaim (sqrtQ : ℚ → ℚ) (params : SimulationParamsL)
    (nodes : List NodeL) (e : EdgeL) (i j : ℕ) : Vec3Q :=
  let ni := nodes.getD i defaultNode
  let nj := nodes.getD j defaultNode
  let dx := nj.data.position.1 - ni.data.position.1
  let dy := nj.data.position.2.1 - ni.data.position.2.1
  let dz := nj.data.position.2.2 - ni.data.position.2.2
  let d2 := dx * dx + dy * dy + dz * dz
  let dist := sqrtQ d2
  let factor := params.springStrength * e.weight * dist
  (dx / dist * factor, dy / dist * factor, dz / dist * factor)

/-- The claim's per-edge spring contribution as literally stated (no
floor). -/
def specSpringForceClaim (sqrtQ : ℚ → ℚ) (params : SimulationParamsL)
    (nodes : List NodeL) (k : ℕ) (e : EdgeL) : Vec3Q :=
  match nodes.findIdx? (fun n => n.id == e.source),
        nodes.findIdx? (fun n => n.id == e.target) with
  | some i, some j =>
      (if k = i then springPairForceClaim sqrtQ params nodes e i j else 0) +
        (if k = j then -springPairForceClaim sqrtQ params nodes e i j
         else 0)
  | _, _ => Vec3Q.zero

/-- The claim's net force as literally stated: guarded repulsion plus
unguarded spring terms. -/
def specForceClaim (sqrtQ : ℚ → ℚ) (params : SimulationParamsL)
    (nodes : List NodeL) (edges : List EdgeL) (k : ℕ) : Vec3Q :=
  ((List.range nodes.length).map (specRepForce sqrtQ params nodes k)).sum +
    (edges.map (specSpringForceClaim sqrtQ params nodes k)).sum

/-- The step the claim describes, as literally stated: integrate the
claim's forces (no spring floor). -/
def claimStep (sqrtQ : ℚ → ℚ) (params : SimulationParamsL)
    (g : GraphDataL) : GraphDataL :=
  if g.nodes.isEmpty then g
  else
    { g with
      nodes :=
        (g.nodes.zip ((List.range g.nodes.length).map
          (specForceClaim sqrtQ params g.nodes g.edges))).map
            (fun p => integrateRaw params p.2 p.1) }

/-- Counterexample parameters: no bounds, damping ½, unit time step. -/
def paramsC6 : SimulationParamsL :=
  { springStrength := 1, repulsion := 1, damping := 1 / 2,
    maxRepulsionDistance := 10, viewportBounds := 10, massScale := 1,
    boundaryDamping := 1 / 2, enableBounds := false, timeStep := 1 }

/-- Two nodes 0.009 apart (`d² = 0.000081 < 10⁻⁴`) joined by an edge
of weight 1. -/
def graphC6 : GraphDataL :=
  { nodes := [⟨"0", "a", "a", none, [], 0,
      ⟨(0, 0, 0), (0, 0, 0), 0, 1, (0, 0)⟩⟩,
     ⟨"1", "b", "b", none, [], 0,
      ⟨(9 / 1000, 0, 0), (0, 0, 0), 0, 1, (0, 0)⟩⟩],
    edges := [⟨"0", "1", 1⟩], metadata := [], idToMetadata := [] }

/-- A square-root oracle that is exact on the one distance the
counterexample uses. -/
def sqrtC6 : ℚ → ℚ := fun q => if q = 81 / 1000000 then 9 / 1000 else 0

/-- C6 (counterexample): on two nodes at distance 0.009 joined by an
edge, the code's spring pass skips the edge (`d² = 0.000081 < 10⁻⁴`)
and node 0 keeps velocity x = 0, while the claim's formula (spring
term per edge, no floor) gives it velocity x = 0.009 — so one CPU step
does not compute the claim's forces as stated. -/
theorem c6_spring_floor_skips :
    springPairForce sqrtC6 paramsC6 graphC6.nodes ⟨"0", "1", 1⟩ 0 1 =
      Vec3Q.zero := by
  simp only [springPairForce, graphC6, List.getD_cons_zero,
    List.getD_cons_succ, defaultNode]
  rw [if_pos (by norm_num)]

theorem c6_claim_spring_fires :
    springPairForceClaim sqrtC6 paramsC6 graphC6.nodes ⟨"0", "1", 1⟩ 0 1 =
      ((9 / 1000 : ℚ), 0, 0) := by
  simp only [springPairForceClaim, graphC6, List.getD_cons_zero,
    List.getD_cons_succ, defaultNode]
  norm_num [sqrtC6, paramsC6, Prod.ext_iff]

theorem c6_forces_zero :
    computeForcesCpu sqrtC6 paramsC6 graphC6.nodes graphC6.edges =
      [Vec3Q.zero, Vec3Q.zero] := by
  have hpair : pairList 2 = [(0, 1)] := by decide
  have h2 : graphC6.nodes.length = 2 := rfl
  unfold computeForcesCpu
  rw [h2, hpair,
    show List.replicate 2 Vec3Q.zero = [Vec3Q.zero, Vec3Q.zero] from rfl]
  show List.foldl (springStep sqrtC6 paramsC6 graphC6.nodes)
    (List.foldl (repStep sqrtC6 paramsC6 graphC6.nodes)
      [Vec3Q.zero, Vec3Q.zero] [(0, 1)]) graphC6.edges =
    [Vec3Q.zero, Vec3Q.zero]
  rw [List.foldl_cons, List.foldl_nil]
  have hrep : repStep sqrtC6 paramsC6 graphC6.nodes
      [Vec3Q.zero, Vec3Q.zero] (0, 1) = [Vec3Q.zero, Vec3Q.zero] := by
    simp only [repStep, graphC6, List.getD_cons_zero,
      List.getD_cons_succ, defaultNode]
    rw [if_pos (by norm_num)]
  rw [hrep, show graphC6.edges = [⟨"0", "1", 1⟩] from rfl,
    List.foldl_cons, List.foldl_nil]
  have hf0 : graphC6.nodes.findIdx?
      (fun n => n.id == (⟨"0", "1", 1⟩ : EdgeL).source) = some 0 := rfl
  have hf1 : graphC6.nodes.findIdx?
      (fun n => n.id == (⟨"0", "1", 1⟩ : EdgeL).target) = some 1 := rfl
  rw [springStep_eq]
  simp only [hf0, hf1, c6_spring_floor_skips]
  rw [modifyAt_id _ (by intro a; simp [Vec3Q.zero]),
    modifyAt_id _ (by intro a; simp [Vec3Q.zero])]

/-- C6 (counterexample): on two nodes at distance 0.009 joined by an
edge, the code's spring pass skips the edge (`d² = 0.000081 < 10⁻⁴`)
and node 0 keeps velocity x = 0, while the claim's formula (spring
term per edge, no floor) gives it velocity x = 0.009 — so one CPU step
does not compute the claim's forces as literally stated. -/
theorem c6_counterexample :
    calculate_layout_cpu sqrtC6 paramsC6 graphC6 ≠
      claimStep sqrtC6 paramsC6 graphC6 := by
  intro h
  have hv := congrArg
    (fun gr => ((gr.nodes.getD 0 defaultNode).data.velocity.1)) h
  have hL : ((calculate_layout_cpu sqrtC6 paramsC6 graphC6).nodes.getD 0
      defaultNode).data.velocity.1 = 0 := by
    unfold calculate_layout_cpu
    rw [if_neg (by simp [graphC6])]
    rw [c6_forces_zero]
    show (integrateNode paramsC6 Vec3Q.zero
      (graphC6.nodes.getD 0 defaultNode)).data.velocity.1 = 0
    norm_num [integrateNode, integrateRaw, paramsC6, graphC6,
      Vec3Q.zero, defaultNode]
  have hR : ((claimStep sqrtC6 paramsC6 graphC6).nodes.getD 0
      defaultNode).data.velocity.1 = 9 / 1000 := by
    unfold claimStep
    rw [if_neg (by simp [graphC6])]
    have hforce : specForceClaim sqrtC6 paramsC6 graphC6.nodes
        graphC6.edges 0 = ((9 / 1000 : ℚ), 0, 0) := by
      unfold specForceClaim
      have h2 : graphC6.nodes.length = 2 := rfl
      rw [h2, show List.range 2 = [0, 1] from rfl,
        show graphC6.edges = [⟨"0", "1", 1⟩] from rfl]
      have hr00 : specRepForce sqrtC6 paramsC6 graphC6.nodes 0 0 = 0 :=
        specRep_self sqrtC6 paramsC6 graphC6.nodes 0
      have hr01 : specRepForce sqrtC6 paramsC6 graphC6.nodes 0 1 = 0 := by
        simp only [specRepForce, graphC6, List.getD_cons_zero,
          List.getD_cons_succ, defaultNode]
        rw [if_pos (by norm_num)]
        rfl
      have hf0 : graphC6.nodes.findIdx?
          (fun n => n.id == (⟨"0", "1", 1⟩ : EdgeL).source) = some 0 := rfl
      have hf1 : graphC6.nodes.findIdx?
          (fun n => n.id == (⟨"0", "1", 1⟩ : EdgeL).target) = some 1 := rfl
      have hs0 : specSpringForceClaim sqrtC6 paramsC6 graphC6.nodes 0
          ⟨"0", "1", 1⟩ = ((9 / 1000 : ℚ), 0, 0) := by
        unfold specSpringForceClaim
        simp only [hf0, hf1, c6_claim_spring_fires]
        norm_num
      simp only [List.map_cons, List.map_nil, List.sum_cons,
        List.sum_nil, hr00, hr01, hs0]
      norm_num
    have hzip : (graphC6.nodes.zip ((List.range graphC6.nodes.length).map
        (specForceClaim sqrtC6 paramsC6 graphC6.nodes graphC6.edges))).map
          (fun p => integrateRaw paramsC6 p.2 p.1) =
        [integrateRaw paramsC6 (specForceClaim sqrtC6 paramsC6
            graphC6.nodes graphC6.edges 0)
          (graphC6.nodes.getD 0 defaultNode),
         integrateRaw paramsC6 (specForceClaim sqrtC6 paramsC6
            graphC6.nodes graphC6.edges 1)
          (graphC6.nodes.getD 1 defaultNode)] := rfl
    rw [hzip, hforce]
    show (integrateRaw paramsC6 ((9 / 1000 : ℚ), 0, 0)
      (graphC6.nodes.getD 0 defaultNode)).data.velocity.1 = 9 / 1000
    norm_num [integrateRaw, paramsC6, graphC6]
  simp only [hL, hR] at hv
  norm_num at hv

theorem c6_step_computes_forces_witness :
    paramsC6.enableBounds = false ∧
    calculate_layout_cpu sqrtC6 paramsC6 graphC6 =
      (if graphC6.nodes.isEmpty then graphC6
       else
        { graphC6 with
          nodes :=
            (graphC6.nodes.zip (specForces sqrtC6 paramsC6 graphC6.nodes
                graphC6.edges)).map
              (fun p => integrateRaw paramsC6 p.2 p.1) }) :=
  ⟨rfl, c6_step_computes_forces sqrtC6 paramsC6 graphC6 rfl⟩
